import Mathlib

/-!
Verification development for the OpenTTD 40bpp animated blitter
(`src/blitter/40bpp_anim.cpp`).

The blitter maintains two co-located buffers: a colour buffer (one 32-bit
RGBA word per pixel) and an animation buffer (one byte per pixel, the
palette-animation class).  Both buffers are modelled as total functions
from `Int` (the pixel offset from the screen origin, i.e. `x + y * pitch`)
to their cell values.

Sprite data is modelled at the level the draw loop consumes it: per line,
a list of runs; a run is either a fully-transparent run (`Run.trans n`,
the encoded placeholder pixel has alpha 0 and covers `n` columns) or a
coloured run (`Run.col cells`, one `Cell` per covered column, carrying the
pixel and its 16-bit m-entry from the remap stream).  The encoder
invariants (nonempty coloured runs, alpha class uniform inside a run,
no alpha-0 pixel inside a coloured run) appear as the `RunWF` predicate
in the theorems.

Colour-composition primitives (`ComposeColourRGBANoCheck`,
`ComposeColourPANoCheck`, `MakeDark`, `MakeTransparent`,
`GetColourBrightness`, `GetNearestColourIndex`, `LookupColourInPalette`
and the palette-animation table) live in headers that are not part of
this excerpt; they are bundled as the fields of `ColourPrims` and all
theorems hold for every choice of these primitives.
-/

/-- A 32-bit pixel: four independent 8-bit channels packed in one word
(`Colour` of `32bpp_base.hpp`). -/
structure Colour where
  r : Nat
  g : Nat
  b : Nat
  a : Nat
deriving DecidableEq

/-- Modelled from the spec: the `Colour(r, g, b)` constructor defaults the
alpha channel to fully opaque (255); the constructor itself is in a header
outside this excerpt. -/
def mkOpaque (r g b : Nat) : Colour := ⟨r, g, b, 255⟩

/-- Cached black value `_black_colour(0, 0, 0)` (40bpp_anim.cpp line 27). -/
def blackColour : Colour := mkOpaque 0 0 0

/-- `GB(x, 0, 8)`: the low byte of a 16-bit m-entry. -/
def GB8 (x : Nat) : Nat := x % 256

/-- One column of a coloured run: the pixel from the pixel stream and the
16-bit entry from the remap/alpha-class stream (its low byte is the
remap/animation class `m`). -/
structure Cell where
  px : Colour
  mEntry : Nat
deriving DecidableEq

/-- One run of the per-line run-length data: either a fully transparent
run covering `n` columns (the stream stores a single placeholder pixel
with alpha 0 for it), or a coloured run with one cell per column. -/
inductive Run where
  | trans (n : Nat)
  | col (cells : List Cell)
deriving DecidableEq

/-- Number of destination columns a run covers. -/
def Run.cover : Run → Nat
  | .trans n => n
  | .col cells => cells.length

/-- Encoder invariants on a run, used as hypotheses: coloured runs are
nonempty and alpha-class uniform (all pixels opaque, or all translucent
with 0 < a < 255); the loop tests only the first pixel's alpha to pick
the per-run branch, so uniformity is what makes that test meaningful. -/
def RunWF : Run → Prop
  | .trans _ => True
  | .col cells =>
      cells ≠ [] ∧
      ((∀ c ∈ cells, c.px.a = 255) ∨ (∀ c ∈ cells, 0 < c.px.a ∧ c.px.a < 255))

instance : DecidablePred RunWF := fun r => by
  cases r with
  | trans n => exact isTrue trivial
  | col cells => exact inferInstanceAs (Decidable (_ ∧ _))

/-- The colour-composition primitives of `32bpp_base.hpp` /
`palette_func.h`, absent from this excerpt; every theorem is proved for
an arbitrary instance.  `animTable` is the palette-animation
class-to-colour table consulted by `RealizeBlendedColour`. -/
structure ColourPrims where
  composeRGBA : Nat → Nat → Nat → Nat → Colour → Colour
  composePA : Colour → Nat → Colour → Colour
  lookupPalette : Nat → Colour
  makeDark : Colour → Colour
  makeTransparent : Colour → Nat → Nat → Colour
  brightness : Colour → Nat
  nearestColourIndex : Colour → Nat
  animTable : Nat → Colour

/-- Modelled from the spec: `RealizeBlendedColour(animClass, colour)` —
"if `animClass == 0`, returns `colour` unchanged; otherwise looks up
`animClass` in the palette-animation table"; the function body is in a
header outside this excerpt. -/
def realizeBlended (prims : ColourPrims) (animClass : Nat) (c : Colour) : Colour :=
  if animClass = 0 then c else prims.animTable animClass

/-- The two co-located destination buffers, indexed by the pixel offset
`x + y * pitch` from the screen origin. -/
structure DrawState where
  dst : Int → Colour
  anim : Int → Nat

/-- Write the colour word and the animation byte at one offset. -/
def writePix (s : DrawState) (p : Int) (v : Colour × Nat) : DrawState :=
  { dst := fun q => if q = p then v.1 else s.dst q,
    anim := fun q => if q = p then v.2 else s.anim q }

/-- Read both buffers at one offset. -/
def pixAt (s : DrawState) (p : Int) : Colour × Nat := (s.dst p, s.anim p)

/-- The six draw modes of the `BlitterMode` enumeration. -/
inductive BlitterMode where
  | Normal
  | ColourRemap
  | Transparent
  | TransparentRemap
  | CrashRemap
  | BlackRemap
deriving DecidableEq

/-- One iteration of a mode-specialized inner `do/while` loop of
`Draw<mode>`: consume one cell, write (or leave) the destination pixel at
`p` from its current value, move one column right.  `eff` is the per-cell
composition policy of the selected `switch` arm. -/
def foldCells (eff : Cell → Colour × Nat → Colour × Nat) :
    List Cell → Int → DrawState → DrawState
  | [], _, s => s
  | c :: rest, p, s => foldCells eff rest (p + 1) (writePix s p (eff c (pixAt s p)))

/-- ColourRemap/CrashRemap, opaque arm (40bpp_anim.cpp lines 186-204):
`m == 0` draws the raw (or, for CrashRemap, darkened) colour and clears
the animation byte; otherwise `remap[m]` is written to the animation byte
together with the raw pixel, and a zero remap entry skips the write. -/
def effCROpq (prims : ColourPrims) (remap : Nat → Nat) (crash : Bool)
    (c : Cell) (cur : Colour × Nat) : Colour × Nat :=
  let m := GB8 c.mEntry
  if m = 0 then
    ((if crash then prims.makeDark c.px else c.px), 0)
  else
    let r := remap m
    if r ≠ 0 then (c.px, r) else cur

/-- ColourRemap/CrashRemap, translucent arm (lines 206-224): blend against
`RealizeBlendedColour` of the current destination; a zero remap entry
skips the write; the animation byte is cleared on every write. -/
def effCRTrl (prims : ColourPrims) (remap : Nat → Nat) (crash : Bool)
    (c : Cell) (cur : Colour × Nat) : Colour × Nat :=
  let m := GB8 c.mEntry
  let b := realizeBlended prims cur.2 cur.1
  if m = 0 then
    let cc := if crash then prims.makeDark c.px else c.px
    (prims.composeRGBA cc.r cc.g cc.b c.px.a b, 0)
  else
    let r := remap m
    if r ≠ 0 then (prims.composePA (prims.lookupPalette r) c.px.a b, 0) else cur

/-- BlackRemap arm (lines 228-234): force solid black, clear the byte. -/
def effBlack (_c : Cell) (_cur : Colour × Nat) : Colour × Nat := (blackColour, 0)

/-- Transparent, opaque arm (lines 240-250): darken the destination by
3/4; a non-zero animation byte makes the blend read only the brightness
of the destination colour.  The animation byte is not written. -/
def effTranspOpq (prims : ColourPrims) (_c : Cell) (cur : Colour × Nat) : Colour × Nat :=
  let b := if cur.2 ≠ 0 then mkOpaque (prims.brightness cur.1) 0 0 else cur.1
  (prims.makeTransparent b 3 4, cur.2)

/-- Transparent, translucent arm (lines 252-259): darken by the per-pixel
alpha fraction against `RealizeBlendedColour`, clearing the byte. -/
def effTranspTrl (prims : ColourPrims) (c : Cell) (cur : Colour × Nat) : Colour × Nat :=
  let b := realizeBlended prims cur.2 cur.1
  (prims.makeTransparent b (256 * 4 - c.px.a) (256 * 4), 0)

/-- TransparentRemap arm (lines 266-277): a pixel with a non-zero
animation byte has that byte remapped; otherwise the destination colour
is palette-matched, remapped and written back as a direct colour. -/
def effTRemap (prims : ColourPrims) (remap : Nat → Nat)
    (_c : Cell) (cur : Colour × Nat) : Colour × Nat :=
  if cur.2 ≠ 0 then
    (cur.1, remap cur.2)
  else
    (prims.lookupPalette (remap (prims.nearestColourIndex cur.1)), 0)

/-- Normal (the `default:` arm), opaque case (lines 286-293): copy the
source pixel and set the animation byte to the m-entry's low byte. -/
def effNormalOpq (_prims : ColourPrims) (c : Cell) (_cur : Colour × Nat) : Colour × Nat :=
  (c.px, GB8 c.mEntry)

/-- Normal, translucent case (lines 295-311): `m == 0` blends the RGBA
channels and clears the byte; `m != 0` blends against the palette colour
of `m` and sets the byte to `m`. -/
def effNormalTrl (prims : ColourPrims) (c : Cell) (cur : Colour × Nat) : Colour × Nat :=
  let m := GB8 c.mEntry
  let b := realizeBlended prims cur.2 cur.1
  if m = 0 then
    (prims.composeRGBA c.px.r c.px.g c.px.b c.px.a b, 0)
  else
    (prims.composePA (prims.lookupPalette m) c.px.a b, m)

/-- The `switch (mode)` of `Draw<mode>` (lines 183-313): pick the per-cell
composition policy from the mode and the alpha of the first pixel of the
run portion about to be drawn (the loop tests `src_px->a` once per run
entry). -/
def runEff (mode : BlitterMode) (prims : ColourPrims) (remap : Nat → Nat)
    (head : Colour) : Cell → Colour × Nat → Colour × Nat :=
  match mode with
  | .ColourRemap =>
      if head.a = 255 then effCROpq prims remap false else effCRTrl prims remap false
  | .CrashRemap =>
      if head.a = 255 then effCROpq prims remap true else effCRTrl prims remap true
  | .BlackRemap => effBlack
  | .Transparent =>
      if head.a = 255 then effTranspOpq prims else effTranspTrl prims
  | .TransparentRemap =>
      if head.a ≠ 0 then effTRemap prims remap else fun _ cur => cur
  | .Normal =>
      if head.a = 255 then effNormalOpq prims else effNormalTrl prims

/-- One full `switch` entry: draw the given cells at consecutive offsets
starting at `p`; the branch is selected from the head cell's alpha. -/
def drawRunCells (mode : BlitterMode) (prims : ColourPrims) (remap : Nat → Nat)
    (cells : List Cell) (p : Int) (s : DrawState) : DrawState :=
  match cells with
  | [] => s
  | c :: _ => foldCells (runEff mode prims remap c.px) cells p s

/-- The skip-left loop of `Draw<mode>` (lines 138-163): consume runs
without writing until `skip_left` columns are consumed.  Returns the
start column of the draw phase relative to the visible window (non-zero
only when a transparent run overshoots the clip boundary, line 146), an
optional straddling coloured-run remainder to draw first (the
`goto draw` path, lines 148-157, with its pre-clamped count
`min (n - d) width`), and the runs left in the stream. -/
def skipRuns (skipLeft width : Nat) :
    List Run → Nat → Nat × Option (List Cell × Nat) × List Run
  | [], skipped => (skipped - skipLeft, none, [])
  | run :: rest, skipped =>
    if skipped < skipLeft then
      match run with
      | .trans n => skipRuns skipLeft width rest (skipped + n)
      | .col cells =>
          if skipLeft < skipped + cells.length then
            (0, some (cells.drop (skipLeft - skipped),
                      min (cells.length - (skipLeft - skipped)) width), rest)
          else skipRuns skipLeft width rest (skipped + cells.length)
    else (skipped - skipLeft, none, run :: rest)

/-- The main compositing loop of a line (lines 170-314): while the
current column `pos` is left of `width`, read a run, clamp its count to
the columns left (line 171), and either skip it (alpha 0, lines 173-179)
or hand it to the mode-specialized arm. -/
def drawRuns (mode : BlitterMode) (prims : ColourPrims) (remap : Nat → Nat)
    (width : Nat) : List Run → Nat → Int → DrawState → DrawState
  | [], _, _, s => s
  | run :: rest, pos, rowBase, s =>
    if pos < width then
      match run with
      | .trans n =>
          drawRuns mode prims remap width rest (pos + min n (width - pos)) rowBase s
      | .col cells =>
          let n := min cells.length (width - pos)
          drawRuns mode prims remap width rest (pos + n) rowBase
            (drawRunCells mode prims remap (cells.take n) (rowBase + pos) s)
    else s

/-- One scanline of `Draw<mode>`: the skip-left phase followed by the
draw phase; a straddling run remainder from the skip phase is drawn
first at the window origin (the `goto draw` entry). -/
def drawRow (mode : BlitterMode) (prims : ColourPrims) (remap : Nat → Nat)
    (skipLeft width : Nat) (runs : List Run) (rowBase : Int) (s : DrawState) : DrawState :=
  match skipRuns skipLeft width runs 0 with
  | (startCol, none, rest) => drawRuns mode prims remap width rest startCol rowBase s
  | (_, some (cells, n), rest) =>
      drawRuns mode prims remap width rest n rowBase
        (drawRunCells mode prims remap (cells.take n) rowBase s)

/-- The outer line loop of `Draw<mode>` (lines 119-320): process `height`
lines, each at a row base one `pitch` further down. -/
def drawLines (mode : BlitterMode) (prims : ColourPrims) (remap : Nat → Nat)
    (skipLeft width : Nat) (pitch : Int) :
    List (List Run) → Nat → Int → DrawState → DrawState
  | _, 0, _, s => s
  | [], _ + 1, _, s => s
  | ln :: rest, h + 1, rowBase, s =>
      drawLines mode prims remap skipLeft width pitch rest h (rowBase + pitch)
        (drawRow mode prims remap skipLeft width ln rowBase s)

/-- `Blitter_40bppAnim::Draw<mode>` (lines 92-321): skip `skipTop` lines
of the sprite (lines 106-109), then composite `height` lines of `width`
columns each, the first destination cell at offset `base`
(`bp->dst + bp->top * bp->pitch + bp->left`, lines 112-114). -/
def Draw (mode : BlitterMode) (prims : ColourPrims) (remap : Nat → Nat)
    (skipTop skipLeft width height : Nat) (pitch base : Int)
    (lines : List (List Run)) (s : DrawState) : DrawState :=
  drawLines mode prims remap skipLeft width pitch (lines.drop skipTop) height base s

/-- The cell found at source column `i` of a line, `none` when the column
is covered by a fully-transparent run (or lies past the encoded data). -/
def colAt : List Run → Nat → Option Cell
  | [], _ => none
  | .trans n :: rest, i => if i < n then none else colAt rest (i - n)
  | .col cells :: rest, i =>
      if i < cells.length then cells.get? i else colAt rest (i - cells.length)

/-- The runs of line `i` of a sprite. -/
def lineAt (lines : List (List Run)) (i : Nat) : List Run := (lines.get? i).getD []

/-- Result of the public `Draw(bp, mode, zoom)` entry point: dispatch to a
mode-specialized `Draw<mode>`, delegate to the non-animated parent
blitter, or hit `NOT_REACHED()` (a fatal abort). -/
inductive DispatchResult where
  | dispatched (m : BlitterMode)
  | delegated
  | fatal
deriving DecidableEq

/-- Modelled from the spec: the `BlitterMode` enumeration (declared in
`blitter/base.hpp`, outside this excerpt) has exactly the six values
listed in the spec, encoded here in declaration order 0..5; any other
underlying value is an unrecognized mode. -/
def decodeMode : Nat → Option BlitterMode
  | 0 => some .Normal
  | 1 => some .ColourRemap
  | 2 => some .Transparent
  | 3 => some .TransparentRemap
  | 4 => some .CrashRemap
  | 5 => some .BlackRemap
  | _ => none

/-- `Blitter_40bppAnim::Draw(bp, mode, zoom)` (lines 330-349): if
animation is disabled or the animation buffer is null, delegate to
`Blitter_32bppOptimized::Draw`; otherwise switch on the mode, with
`default: NOT_REACHED()` for any unrecognized value. -/
def DrawDispatch (disableAnim : Bool) (animBufPresent : Bool) (code : Nat) : DispatchResult :=
  if disableAnim || !animBufPresent then .delegated
  else
    match decodeMode code with
    | some m => .dispatched m
    | none => .fatal

/-- Modelled from the spec: `Blitter_32bppOptimized::Draw` (outside this
excerpt) — the non-animated fallback "must be pixel-identical to a
hypothetical animated draw with all animation bytes forced to 0", and it
writes only the colour buffer. -/
def draw32 (mode : BlitterMode) (prims : ColourPrims) (remap : Nat → Nat)
    (skipTop skipLeft width height : Nat) (pitch base : Int)
    (lines : List (List Run)) (dst0 : Int → Colour) : Int → Colour :=
  (Draw mode prims remap skipTop skipLeft width height pitch base lines
    { dst := dst0, anim := fun _ => 0 }).dst

/-- `Blitter_40bppAnim::SetPixel` (lines 30-40), animation-enabled path:
write solid black into the colour buffer and the requested palette index
`p` into the animation buffer, both at offset `videoOff + x + y * pitch`
(the animation index `(video - dst_ptr) + x + y_offset` is the same
offset from the animation buffer's origin). -/
def SetPixel (s : DrawState) (videoOff : Int) (pitch : Int) (x y : Int) (p : Nat) : DrawState :=
  writePix s (videoOff + x + y * pitch) (blackColour, p)

/-- Inner width loop of `DrawRect` (lines 57-62): fill `w` consecutive
cells with black / `p`. -/
def drawRectRow (s : DrawState) (off : Int) (p : Nat) : Nat → DrawState
  | 0 => s
  | w + 1 => drawRectRow (writePix s off (blackColour, p)) (off + 1) p w

/-- `Blitter_40bppAnim::DrawRect` (lines 42-66), animation-enabled path:
for each of `h` rows starting at `off` and advancing by `pitch`, fill
`w` cells with solid black in the colour buffer and the palette index
`p` in the animation buffer. -/
def DrawRect (s : DrawState) (off : Int) (pitch : Int) (p : Nat) (w : Nat) : Nat → DrawState
  | 0 => s
  | h + 1 => DrawRect (drawRectRow s off p w) (off + pitch) pitch p w h

/-- Little-endian byte serialization of one 32-bit colour word, as
`std::copy_n` over `uint32_t` lays it down in the transfer buffer. -/
def wordBytes (w : Nat) : List Nat :=
  [w % 256, w / 256 % 256, w / 65536 % 256, w / 16777216 % 256]

/-- Reassemble one 32-bit word from four bytes. -/
def bytesToWord (b0 b1 b2 b3 : Nat) : Nat := b0 + 256 * b1 + 65536 * b2 + 16777216 * b3

/-- Serialize a row of colour words to bytes. -/
def wordsToBytes : List Nat → List Nat
  | [] => []
  | w :: ws => wordBytes w ++ wordsToBytes ws

/-- Parse a byte stream back into 32-bit words (groups of four bytes). -/
def bytesToWords : List Nat → List Nat
  | b0 :: b1 :: b2 :: b3 :: rest => bytesToWord b0 b1 b2 b3 :: bytesToWords rest
  | _ => []

/-- Read `n` consecutive cells of a buffer starting at `off`. -/
def readRow (buf : Int → Nat) (off : Int) : Nat → List Nat
  | 0 => []
  | n + 1 => buf off :: readRow buf (off + 1) n

/-- Write a list of values into consecutive cells starting at `off`. -/
def writeRow (buf : Int → Nat) (off : Int) : List Nat → Int → Nat
  | [] => buf
  | v :: vs => writeRow (fun q => if q = off then v else buf q) (off + 1) vs

/-- `Blitter_40bppAnim::CopyToBuffer` (lines 431-451): per row, append the
`width` colour words (as bytes) followed by the row's `width` animation
bytes to the output buffer; rows advance by the screen pitch.  The colour
buffer holds 32-bit words here, exactly as the function reads it through
`uint32_t *`. -/
def CopyToBuffer (colour anim : Int → Nat) (off : Int) (pitch : Int)
    (width : Nat) : Nat → List Nat
  | 0 => []
  | h + 1 =>
      wordsToBytes (readRow colour off width) ++ readRow anim off width ++
        CopyToBuffer colour anim (off + pitch) pitch width h

/-- `Blitter_40bppAnim::CopyFromBuffer` (lines 409-429), animation buffer
present: per row, write `width` colour words parsed from the buffer, then
the row's `width` animation bytes, rows advancing by the screen pitch. -/
def CopyFromBuffer (colour anim : Int → Nat) (off : Int) (pitch : Int)
    (width : Nat) : Nat → List Nat → (Int → Nat) × (Int → Nat)
  | 0, _ => (colour, anim)
  | h + 1, src =>
      let colour1 := writeRow colour off (bytesToWords (src.take (4 * width)))
      let rest := src.drop (4 * width)
      let anim1 := writeRow anim off (rest.take width)
      CopyFromBuffer colour1 anim1 (off + pitch) pitch width h (rest.drop width)

/-- `CopyToBuffer` with the null-animation-buffer early return
(line 439): when `GetAnimBuffer()` is null the function returns before
writing anything into the caller's buffer. -/
def CopyToBufferTop (colour : Int → Nat) (animOpt : Option (Int → Nat))
    (off : Int) (pitch : Int) (width height : Nat) : Option (List Nat) :=
  match animOpt with
  | none => none
  | some anim => some (CopyToBuffer colour anim off pitch width height)

/-- `CopyFromBuffer` with the null-animation-buffer early return
(line 417): when `GetAnimBuffer()` is null the function returns without
copying anything — the colour buffer included. -/
def CopyFromBufferTop (colour : Int → Nat) (animOpt : Option (Int → Nat))
    (off : Int) (pitch : Int) (width height : Nat) (src : List Nat) :
    (Int → Nat) × Option (Int → Nat) :=
  match animOpt with
  | none => (colour, none)
  | some anim =>
      let r := CopyFromBuffer colour anim off pitch width height src
      (r.1, some r.2)

/-- Move one row of `tw` cells from `src` to `dst` as a single block
(`memmove` semantics: the sources are all read before any write). -/
def moveRow (buf : Int → Nat) (src dst : Int) (tw : Nat) : Int → Nat :=
  fun p => if dst ≤ p ∧ p < dst + (tw : Int) then buf (src + (p - dst)) else buf p

/-- Modelled from the spec: `Blitter::MovePixels` (outside this excerpt)
— move a `tw × th` window row by row, both cursors advancing by `pitch`
after each row; only its call sites in `ScrollBuffer` are in the
excerpt. -/
def MovePixels (buf : Int → Nat) (src dst : Int) (tw : Nat) :
    Nat → Int → Int → Nat
  | 0, _ => buf
  | th + 1, pitch =>
      MovePixels (moveRow buf src dst tw) (src + pitch) (dst + pitch) tw th pitch

/-- The window geometry of `Blitter_40bppAnim::ScrollBuffer`
(lines 475-515) applied to one buffer: for `scroll_y > 0` start at the
bottom row of the rectangle and move upwards (negative row pitch),
otherwise start at the top row and move downwards; `scroll_x`'s sign
decides whether the destination or the source pointer gets the horizontal
offset; `tw`/`th` are the overlap window extents (computed through
unsigned variables, modelled by `Int.toNat`). -/
def scrollGeom (buf : Int → Nat) (pitch left top width height sx sy : Int) : Int → Nat :=
  if 0 < sy then
    let dst0 := left + (top + height - 1) * pitch
    let src0 := dst0 - sy * pitch
    let dst1 := if 0 ≤ sx then dst0 + sx else dst0
    let src1 := if 0 ≤ sx then src0 else src0 - sx
    let tw := (width + (if 0 ≤ sx then -sx else sx)).toNat
    let th := (height - sy).toNat
    MovePixels buf src1 dst1 tw th (-pitch)
  else
    let dst0 := left + top * pitch
    let src0 := dst0 - sy * pitch
    let dst1 := if 0 ≤ sx then dst0 + sx else dst0
    let src1 := if 0 ≤ sx then src0 else src0 - sx
    let tw := (width + (if 0 ≤ sx then -sx else sx)).toNat
    let th := (height + sy).toNat
    MovePixels buf src1 dst1 tw th pitch

/-- `Blitter_40bppAnim::ScrollBuffer`: scroll the animation-buffer window
first (lines 483-512), then — modelled from the spec, since
`Blitter_32bppBase::ScrollBuffer` is outside this excerpt — apply "the
colour-buffer move" with "the identical geometry" (line 514). -/
def ScrollBuffer (colour anim : Int → Nat)
    (pitch left top width height sx sy : Int) : (Int → Nat) × (Int → Nat) :=
  (scrollGeom colour pitch left top width height sx sy,
   scrollGeom anim pitch left top width height sx sy)

/-- `Blitter_40bppAnim::BufferSize` (lines 517-520):
`(sizeof(uint32_t) + sizeof(uint8_t)) * width * height`. -/
def BufferSize (width height : Nat) : Nat := (4 + 1) * width * height

/-- A concrete instance of the colour primitives, used to instantiate
the universally-quantified theorems at concrete inputs. -/
def trivPrims : ColourPrims where
  composeRGBA := fun r g b a _ => ⟨r, g, b, a⟩
  composePA := fun c _ _ => c
  lookupPalette := fun n => ⟨n, n, n, 255⟩
  makeDark := fun c => ⟨c.r / 2, c.g / 2, c.b / 2, c.a⟩
  makeTransparent := fun c _ _ => c
  brightness := fun c => c.r
  nearestColourIndex := fun c => c.r
  animTable := fun n => ⟨n, 0, 0, 255⟩

/-- Alpha-class agreement of all cells of a (portion of a) coloured run,
as `RunWF` guarantees it. -/
def CellsUniform (cs : List Cell) : Prop :=
  (∀ c ∈ cs, c.px.a = 255) ∨ (∀ c ∈ cs, 0 < c.px.a ∧ c.px.a < 255)

/-- What the skip-left phase guarantees, used to stitch it to the draw
phase: the columns it consumed line up with `colAt` of the whole line. -/
def SkipOut (runs : List Run) (skipLeft skipped width : Nat) :
    Nat × Option (List Cell × Nat) × List Run → Prop
  | (sc, none, rest) =>
      (∀ r ∈ rest, RunWF r) ∧
      ∀ x : Nat, colAt runs (skipLeft - skipped + x) =
        if x < sc then none else colAt rest (x - sc)
  | (sc, some (cs, n), rest) =>
      sc = 0 ∧ n = min cs.length width ∧ cs ≠ [] ∧ CellsUniform cs ∧
      (∀ r ∈ rest, RunWF r) ∧
      ∀ x : Nat, colAt runs (skipLeft - skipped + x) =
        if x < cs.length then cs.get? x else colAt rest (x - cs.length)

/-- The pointwise effect of one source column on its destination pixel:
`none` (a fully-transparent column) leaves it alone, a cell composes with
the policy of its own alpha class. -/
def applyCell (mode : BlitterMode) (prims : ColourPrims) (remap : Nat → Nat)
    (oc : Option Cell) (cur : Colour × Nat) : Colour × Nat :=
  match oc with
  | some c => runEff mode prims remap c.px c cur
  | none => cur

theorem pixAt_writePix_self (s : DrawState) (p : Int) (v : Colour × Nat) :
    pixAt (writePix s p v) p = v := by
  simp [pixAt, writePix]

theorem pixAt_writePix_ne (s : DrawState) (p q : Int) (v : Colour × Nat) (h : q ≠ p) :
    pixAt (writePix s p v) q = pixAt s q := by
  simp [pixAt, writePix, h]

theorem foldCells_out (eff : Cell → Colour × Nat → Colour × Nat) :
    ∀ (cs : List Cell) (p : Int) (s : DrawState) (q : Int),
      (q < p ∨ p + (cs.length : Int) ≤ q) →
      pixAt (foldCells eff cs p s) q = pixAt s q := by
  intro cs
  induction cs with
  | nil => intro p s q _; rfl
  | cons c rest ih =>
      intro p s q hq
      have hne : q ≠ p := by
        rcases hq with h | h
        · exact ne_of_lt h
        · have : (0 : Int) < (rest.length : Int) + 1 := by positivity
          intro he; rw [he] at h; simp at h; omega
      have hrec : q < p + 1 ∨ (p + 1) + (rest.length : Int) ≤ q := by
        rcases hq with h | h
        · exact Or.inl (by omega)
        · right; simp at h; omega
      calc pixAt (foldCells eff (c :: rest) p s) q
          = pixAt (foldCells eff rest (p + 1) (writePix s p (eff c (pixAt s p)))) q := rfl
        _ = pixAt (writePix s p (eff c (pixAt s p))) q := ih (p + 1) _ q hrec
        _ = pixAt s q := pixAt_writePix_ne s p q _ hne

theorem foldCells_get (eff : Cell → Colour × Nat → Colour × Nat) :
    ∀ (cs : List Cell) (p : Int) (s : DrawState) (i : Nat) (hi : i < cs.length),
      pixAt (foldCells eff cs p s) (p + (i : Int)) =
        eff (cs.get ⟨i, hi⟩) (pixAt s (p + (i : Int))) := by
  intro cs
  induction cs with
  | nil => intro p s i hi; exact absurd hi (by simp)
  | cons c rest ih =>
      intro p s i hi
      match i with
      | 0 =>
          have h0 : p + ((0 : Nat) : Int) = p := by simp
          rw [h0]
          calc pixAt (foldCells eff (c :: rest) p s) p
              = pixAt (foldCells eff rest (p + 1) (writePix s p (eff c (pixAt s p)))) p := rfl
            _ = pixAt (writePix s p (eff c (pixAt s p))) p :=
                foldCells_out eff rest (p + 1) _ p (Or.inl (by omega))
            _ = eff c (pixAt s p) := pixAt_writePix_self s p _
      | j + 1 =>
          have hj : j < rest.length := by simpa using hi
          have harith : p + ((j + 1 : Nat) : Int) = (p + 1) + (j : Int) := by push_cast; ring
          have hne : (p + 1) + (j : Int) ≠ p := by omega
          rw [harith]
          show pixAt (foldCells eff rest (p + 1) (writePix s p (eff c (pixAt s p))))
              ((p + 1) + (j : Int)) =
            eff (rest.get ⟨j, hj⟩) (pixAt s ((p + 1) + (j : Int)))
          rw [ih (p + 1) _ j hj, pixAt_writePix_ne s p _ _ hne]

theorem ite_app_congr {α : Sort u} (P Q : Prop) [Decidable P] [Decidable Q]
    (hPQ : P ↔ Q) (f g : α) : (if P then f else g) = (if Q then f else g) := by
  by_cases h : P
  · rw [if_pos h, if_pos (hPQ.mp h)]
  · rw [if_neg h, if_neg (fun hq => h (hPQ.mpr hq))]

theorem runEff_congr (mode : BlitterMode) (prims : ColourPrims) (remap : Nat → Nat)
    (h1 h2 : Colour) (e255 : h1.a = 255 ↔ h2.a = 255) (e0 : h1.a = 0 ↔ h2.a = 0) :
    runEff mode prims remap h1 = runEff mode prims remap h2 := by
  cases mode <;> simp only [runEff]
  case Normal => rw [ite_app_congr _ _ e255]
  case ColourRemap => rw [ite_app_congr _ _ e255]
  case CrashRemap => rw [ite_app_congr _ _ e255]
  case Transparent => rw [ite_app_congr _ _ e255]
  case TransparentRemap => rw [ite_app_congr _ _ (not_congr e0)]



theorem cellsUniform_pair {cs : List Cell} (hu : CellsUniform cs)
    {c1 c2 : Cell} (h1 : c1 ∈ cs) (h2 : c2 ∈ cs) :
    (c1.px.a = 255 ↔ c2.px.a = 255) ∧ (c1.px.a = 0 ↔ c2.px.a = 0) := by
  rcases hu with h | h
  · have a1 := h c1 h1; have a2 := h c2 h2
    constructor <;> constructor <;> intro <;> omega
  · have a1 := h c1 h1; have a2 := h c2 h2
    constructor <;> constructor <;> intro <;> omega

theorem drawRunCells_get (mode : BlitterMode) (prims : ColourPrims) (remap : Nat → Nat)
    (cs : List Cell) (p : Int) (s : DrawState) (i : Nat) (hi : i < cs.length)
    (hu : CellsUniform cs) :
    pixAt (drawRunCells mode prims remap cs p s) (p + (i : Int)) =
      runEff mode prims remap (cs.get ⟨i, hi⟩).px (cs.get ⟨i, hi⟩)
        (pixAt s (p + (i : Int))) := by
  match cs, hi with
  | c :: rest, hi =>
      have hmemh : c ∈ c :: rest := List.mem_cons_self c rest
      have hmemi : (c :: rest).get ⟨i, hi⟩ ∈ c :: rest := List.get_mem _ _ _
      have hpair := cellsUniform_pair hu hmemh hmemi
      calc pixAt (drawRunCells mode prims remap (c :: rest) p s) (p + (i : Int))
          = runEff mode prims remap c.px ((c :: rest).get ⟨i, hi⟩)
              (pixAt s (p + (i : Int))) := foldCells_get _ _ p s i hi
        _ = runEff mode prims remap ((c :: rest).get ⟨i, hi⟩).px ((c :: rest).get ⟨i, hi⟩)
              (pixAt s (p + (i : Int))) := by
            rw [runEff_congr mode prims remap c.px ((c :: rest).get ⟨i, hi⟩).px
              hpair.1 hpair.2]

theorem drawRunCells_out (mode : BlitterMode) (prims : ColourPrims) (remap : Nat → Nat)
    (cs : List Cell) (p : Int) (s : DrawState) (q : Int)
    (hq : q < p ∨ p + (cs.length : Int) ≤ q) :
    pixAt (drawRunCells mode prims remap cs p s) q = pixAt s q := by
  match cs with
  | [] => rfl
  | c :: rest => exact foldCells_out _ (c :: rest) p s q hq

theorem skipRuns_done (skipLeft width : Nat) (runs : List Run) (skipped : Nat)
    (h : skipLeft ≤ skipped) :
    skipRuns skipLeft width runs skipped = (skipped - skipLeft, none, runs) := by
  cases runs with
  | nil => rfl
  | cons run rest => simp only [skipRuns, if_neg (by omega : ¬skipped < skipLeft)]



theorem skipRuns_spec (skipLeft width : Nat) :
    ∀ (runs : List Run) (skipped : Nat), skipped ≤ skipLeft →
    (∀ r ∈ runs, RunWF r) →
    SkipOut runs skipLeft skipped width (skipRuns skipLeft width runs skipped) := by
  intro runs
  induction runs with
  | nil =>
      intro skipped hsk _
      have hz : skipped - skipLeft = 0 := by omega
      show (∀ r ∈ ([] : List Run), RunWF r) ∧
        ∀ x : Nat, colAt [] (skipLeft - skipped + x) =
          if x < skipped - skipLeft then none else colAt [] (x - (skipped - skipLeft))
      refine ⟨fun r hr => absurd hr (List.not_mem_nil r), fun x => ?_⟩
      rw [hz]
      simp [colAt]
  | cons run rest ih =>
      intro skipped hsk hWF
      have hWFrun : RunWF run := hWF run (List.mem_cons_self run rest)
      have hWFrest : ∀ r ∈ rest, RunWF r := fun r hr => hWF r (List.mem_cons_of_mem run hr)
      by_cases hlt : skipped < skipLeft
      · cases run with
        | trans n =>
            have hstep : skipRuns skipLeft width (Run.trans n :: rest) skipped =
                skipRuns skipLeft width rest (skipped + n) := by
              simp only [skipRuns, if_pos hlt]
            rw [hstep]
            by_cases hfit : skipped + n ≤ skipLeft
            · have := ih (skipped + n) hfit hWFrest
              rcases hout : skipRuns skipLeft width rest (skipped + n) with ⟨sc, part, rst⟩
              rw [hout] at this
              cases part with
              | none =>
                  obtain ⟨hwr, hcol⟩ := this
                  refine ⟨hwr, ?_⟩
                  intro x
                  have harith : skipLeft - skipped + x - n = skipLeft - (skipped + n) + x := by
                    omega
                  have hge : ¬(skipLeft - skipped + x < n) := by omega
                  simp only [colAt, if_neg hge, harith]
                  exact hcol x
              | some pr =>
                  rcases pr with ⟨cs, m⟩
                  obtain ⟨h0, hm, hne, hu, hwr, hcol⟩ := this
                  refine ⟨h0, hm, hne, hu, hwr, ?_⟩
                  intro x
                  have harith : skipLeft - skipped + x - n = skipLeft - (skipped + n) + x := by
                    omega
                  have hge : ¬(skipLeft - skipped + x < n) := by omega
                  simp only [colAt, if_neg hge, harith]
                  exact hcol x
            · rw [skipRuns_done skipLeft width rest (skipped + n) (by omega)]
              refine ⟨hWFrest, ?_⟩
              intro x
              by_cases hx : x < skipped + n - skipLeft
              · have : skipLeft - skipped + x < n := by omega
                simp only [colAt, if_pos this, if_pos hx]
              · have h1 : ¬(skipLeft - skipped + x < n) := by omega
                have h2 : skipLeft - skipped + x - n = x - (skipped + n - skipLeft) := by
                  omega
                simp only [colAt, if_neg h1, if_neg hx, h2]
        | col cells =>
            by_cases hstr : skipLeft < skipped + cells.length
            · have hstep : skipRuns skipLeft width (Run.col cells :: rest) skipped =
                  (0, some (cells.drop (skipLeft - skipped),
                    min (cells.length - (skipLeft - skipped)) width), rest) := by
                simp only [skipRuns, if_pos hlt, if_pos hstr]
              rw [hstep]
              have hdlen : (cells.drop (skipLeft - skipped)).length =
                  cells.length - (skipLeft - skipped) := by
                simp [List.length_drop]
              refine ⟨rfl, by rw [hdlen], ?_, ?_, hWFrest, ?_⟩
              · intro hnil
                have := congrArg List.length hnil
                rw [hdlen] at this
                simp at this
                omega
              · rcases hWFrun.2 with h | h
                · exact Or.inl fun c hc => h c (List.drop_subset _ _ hc)
                · exact Or.inr fun c hc => h c (List.drop_subset _ _ hc)
              · intro x
                rw [hdlen]
                by_cases hx : x < cells.length - (skipLeft - skipped)
                · have hin : skipLeft - skipped + x < cells.length := by omega
                  simp only [colAt, if_pos hin, if_pos hx]
                  rw [List.get?_drop]
                · have hout2 : ¬(skipLeft - skipped + x < cells.length) := by omega
                  simp only [colAt, if_neg hout2, if_neg hx]
                  congr 1
                  omega
            · have hstep : skipRuns skipLeft width (Run.col cells :: rest) skipped =
                  skipRuns skipLeft width rest (skipped + cells.length) := by
                simp only [skipRuns, if_pos hlt, if_neg hstr]
              rw [hstep]
              have hfit : skipped + cells.length ≤ skipLeft := by omega
              have := ih (skipped + cells.length) hfit hWFrest
              rcases hout : skipRuns skipLeft width rest (skipped + cells.length) with
                ⟨sc, part, rst⟩
              rw [hout] at this
              cases part with
              | none =>
                  obtain ⟨hwr, hcol⟩ := this
                  refine ⟨hwr, ?_⟩
                  intro x
                  have hge : ¬(skipLeft - skipped + x < cells.length) := by omega
                  have harith : skipLeft - skipped + x - cells.length =
                      skipLeft - (skipped + cells.length) + x := by omega
                  simp only [colAt, if_neg hge, harith]
                  exact hcol x
              | some pr =>
                  rcases pr with ⟨cs, m⟩
                  obtain ⟨h0, hm, hne, hu, hwr, hcol⟩ := this
                  refine ⟨h0, hm, hne, hu, hwr, ?_⟩
                  intro x
                  have hge : ¬(skipLeft - skipped + x < cells.length) := by omega
                  have harith : skipLeft - skipped + x - cells.length =
                      skipLeft - (skipped + cells.length) + x := by omega
                  simp only [colAt, if_neg hge, harith]
                  exact hcol x
      · have heq : skipped = skipLeft := by omega
        rw [skipRuns_done skipLeft width _ skipped (by omega)]
        refine ⟨hWF, ?_⟩
        intro x
        have h1 : skipLeft - skipped + x = x := by omega
        have h2 : skipped - skipLeft = 0 := by omega
        simp [h1, h2]



theorem drawRuns_out (mode : BlitterMode) (prims : ColourPrims) (remap : Nat → Nat)
    (width : Nat) :
    ∀ (runs : List Run) (pos : Nat) (rowBase : Int) (s : DrawState) (q : Int),
      (q < rowBase + (pos : Int) ∨ rowBase + (width : Int) ≤ q) →
      pixAt (drawRuns mode prims remap width runs pos rowBase s) q = pixAt s q := by
  intro runs
  induction runs with
  | nil => intro pos rowBase s q _; rfl
  | cons run rest ih =>
      intro pos rowBase s q hq
      by_cases hpos : pos < width
      · cases run with
        | trans n =>
            have hstep : drawRuns mode prims remap width (Run.trans n :: rest) pos rowBase s =
                if pos < width then
                  drawRuns mode prims remap width rest (pos + min n (width - pos)) rowBase s
                else s := rfl
            rw [hstep, if_pos hpos]
            refine ih _ rowBase s q ?_
            rcases hq with h | h
            · left; push_cast; push_cast at h; omega
            · right; exact h
        | col cells =>
            have hstep : drawRuns mode prims remap width (Run.col cells :: rest) pos rowBase s =
                if pos < width then
                  drawRuns mode prims remap width rest
                    (pos + min cells.length (width - pos)) rowBase
                    (drawRunCells mode prims remap
                      (cells.take (min cells.length (width - pos))) (rowBase + (pos : Int)) s)
                else s := rfl
            rw [hstep, if_pos hpos]
            have hn : min cells.length (width - pos) ≤ width - pos := Nat.min_le_right _ _
            have hlen : (cells.take (min cells.length (width - pos))).length =
                min cells.length (width - pos) := by
              simp [List.length_take]
            rw [ih _ rowBase _ q (by
              rcases hq with h | h
              · left; push_cast; push_cast at h; omega
              · right; exact h)]
            refine drawRunCells_out mode prims remap _ _ s q ?_
            rcases hq with h | h
            · left; push_cast; push_cast at h; omega
            · right; rw [hlen]; push_cast; push_cast at h; omega
      · have hstep : drawRuns mode prims remap width (run :: rest) pos rowBase s =
            if pos < width then
              (match run with
               | Run.trans n =>
                   drawRuns mode prims remap width rest (pos + min n (width - pos)) rowBase s
               | Run.col cells =>
                   drawRuns mode prims remap width rest
                     (pos + min cells.length (width - pos)) rowBase
                     (drawRunCells mode prims remap
                       (cells.take (min cells.length (width - pos))) (rowBase + (pos : Int)) s))
            else s := by
          cases run <;> rfl
        rw [hstep, if_neg hpos]

theorem drawRuns_at (mode : BlitterMode) (prims : ColourPrims) (remap : Nat → Nat)
    (width : Nat) :
    ∀ (runs : List Run) (pos : Nat) (rowBase : Int) (s : DrawState) (x : Nat),
      pos ≤ x → x < width → (∀ r ∈ runs, RunWF r) →
      pixAt (drawRuns mode prims remap width runs pos rowBase s) (rowBase + (x : Int)) =
        applyCell mode prims remap (colAt runs (x - pos))
          (pixAt s (rowBase + (x : Int))) := by
  intro runs
  induction runs with
  | nil => intro pos rowBase s x _ _ _; rfl
  | cons run rest ih =>
      intro pos rowBase s x hpx hxw hWF
      have hpos : pos < width := Nat.lt_of_le_of_lt hpx hxw
      have hWFrun : RunWF run := hWF run (List.mem_cons_self run rest)
      have hWFrest : ∀ r ∈ rest, RunWF r := fun r hr => hWF r (List.mem_cons_of_mem run hr)
      cases run with
      | trans n =>
          have hstep : drawRuns mode prims remap width (Run.trans n :: rest) pos rowBase s =
              if pos < width then
                drawRuns mode prims remap width rest (pos + min n (width - pos)) rowBase s
              else s := rfl
          rw [hstep, if_pos hpos]
          by_cases hx : x < pos + min n (width - pos)
          · have hlt : x - pos < n := by
              have := Nat.min_le_left n (width - pos)
              omega
            have hnone : colAt (Run.trans n :: rest) (x - pos) = none := by
              simp only [colAt, if_pos hlt]
            rw [hnone,
              drawRuns_out mode prims remap width rest _ rowBase s _
                (Or.inl (by push_cast; omega))]
            rfl
          · have hnn : min n (width - pos) = n := by
              rcases min_choice n (width - pos) with h | h
              · exact h
              · omega
            rw [hnn] at hx
            have hge : ¬(x - pos < n) := by omega
            have hidx : x - pos - n = x - (pos + n) := by omega
            have hcoleq : colAt (Run.trans n :: rest) (x - pos) =
                colAt rest (x - (pos + n)) := by
              simp only [colAt, if_neg hge, hidx]
            rw [hnn, hcoleq]
            exact ih (pos + n) rowBase s x (by omega) hxw hWFrest
      | col cells =>
          have hstep : drawRuns mode prims remap width (Run.col cells :: rest) pos rowBase s =
              if pos < width then
                drawRuns mode prims remap width rest
                  (pos + min cells.length (width - pos)) rowBase
                  (drawRunCells mode prims remap
                    (cells.take (min cells.length (width - pos))) (rowBase + (pos : Int)) s)
              else s := rfl
          rw [hstep, if_pos hpos]
          set n := min cells.length (width - pos) with hn
          have hnlen : n ≤ cells.length := Nat.min_le_left _ _
          have htklen : (cells.take n).length = n := by
            simp [List.length_take, hn]
          have hu : CellsUniform cells := hWFrun.2
          have hutake : CellsUniform (cells.take n) := by
            rcases hu with h | h
            · exact Or.inl fun c hc => h c (List.take_subset _ _ hc)
            · exact Or.inr fun c hc => h c (List.take_subset _ _ hc)
          by_cases hx : x < pos + n
          · have hi : x - pos < n := by omega
            have hi2 : x - pos < cells.length := by omega
            have hitk : x - pos < (cells.take n).length := by omega
            have hcoleq : colAt (Run.col cells :: rest) (x - pos) =
                some (cells.get ⟨x - pos, hi2⟩) := by
              simp only [colAt, if_pos hi2]
              exact List.get?_eq_get hi2
            rw [hcoleq,
              drawRuns_out mode prims remap width rest _ rowBase _ _
                (Or.inl (by push_cast; omega))]
            have harith : (rowBase + (pos : Int)) + ((x - pos : Nat) : Int) =
                rowBase + (x : Int) := by push_cast; omega
            have hget := drawRunCells_get mode prims remap (cells.take n)
              (rowBase + (pos : Int)) s (x - pos) hitk hutake
            rw [harith] at hget
            rw [hget, List.get_take' cells]
            rfl
          · have hnn : n = cells.length := by
              rcases min_choice cells.length (width - pos) with h | h
              · omega
              · omega
            have hge : ¬(x - pos < cells.length) := by omega
            have hidx : x - pos - cells.length = x - (pos + n) := by omega
            have hcoleq : colAt (Run.col cells :: rest) (x - pos) =
                colAt rest (x - (pos + n)) := by
              simp only [colAt, if_neg hge, hidx]
            rw [hcoleq]
            rw [ih (pos + n) rowBase _ x (by omega) hxw hWFrest]
            have hout : pixAt (drawRunCells mode prims remap (cells.take n)
                (rowBase + (pos : Int)) s) (rowBase + (x : Int)) =
                pixAt s (rowBase + (x : Int)) := by
              refine drawRunCells_out mode prims remap _ _ s _ (Or.inr ?_)
              rw [htklen]
              push_cast
              omega
            rw [hout]

theorem drawRow_out (mode : BlitterMode) (prims : ColourPrims) (remap : Nat → Nat)
    (skipLeft width : Nat) (runs : List Run) (rowBase : Int) (s : DrawState)
    (hWF : ∀ r ∈ runs, RunWF r) (q : Int)
    (hq : q < rowBase ∨ rowBase + (width : Int) ≤ q) :
    pixAt (drawRow mode prims remap skipLeft width runs rowBase s) q = pixAt s q := by
  have hspec := skipRuns_spec skipLeft width runs 0 (Nat.zero_le _) hWF
  have hstep : drawRow mode prims remap skipLeft width runs rowBase s =
      match skipRuns skipLeft width runs 0 with
      | (startCol, none, rest) => drawRuns mode prims remap width rest startCol rowBase s
      | (_, some (cells, n), rest) =>
          drawRuns mode prims remap width rest n rowBase
            (drawRunCells mode prims remap (cells.take n) rowBase s) := rfl
  rcases hout : skipRuns skipLeft width runs 0 with ⟨sc, part, rest⟩
  rw [hout] at hspec
  cases part with
  | none =>
      rw [hstep, hout]
      refine drawRuns_out mode prims remap width rest sc rowBase s q ?_
      rcases hq with h | h
      · left; omega
      · right; exact h
  | some pr =>
      rcases pr with ⟨cs, n⟩
      obtain ⟨-, hm, -, -, -, -⟩ := hspec
      have hnw : n ≤ width := by
        rw [hm]; exact Nat.min_le_right _ _
      rw [hstep, hout]
      have h1 : pixAt (drawRuns mode prims remap width rest n rowBase
          (drawRunCells mode prims remap (cs.take n) rowBase s)) q =
          pixAt (drawRunCells mode prims remap (cs.take n) rowBase s) q := by
        refine drawRuns_out mode prims remap width rest n rowBase _ q ?_
        rcases hq with h | h
        · left; omega
        · right; exact h
      rw [h1]
      refine drawRunCells_out mode prims remap _ rowBase s q ?_
      have hlen : ((cs.take n).length : Int) ≤ (width : Int) := by
        have := List.length_take_le n cs
        push_cast
        omega
      rcases hq with h | h
      · left; exact h
      · right; omega

theorem drawRow_at (mode : BlitterMode) (prims : ColourPrims) (remap : Nat → Nat)
    (skipLeft width : Nat) (runs : List Run) (rowBase : Int) (s : DrawState)
    (hWF : ∀ r ∈ runs, RunWF r) (x : Nat) (hx : x < width) :
    pixAt (drawRow mode prims remap skipLeft width runs rowBase s) (rowBase + (x : Int)) =
      applyCell mode prims remap (colAt runs (skipLeft + x))
        (pixAt s (rowBase + (x : Int))) := by
  have hspec := skipRuns_spec skipLeft width runs 0 (Nat.zero_le _) hWF
  have hstep : drawRow mode prims remap skipLeft width runs rowBase s =
      match skipRuns skipLeft width runs 0 with
      | (startCol, none, rest) => drawRuns mode prims remap width rest startCol rowBase s
      | (_, some (cells, n), rest) =>
          drawRuns mode prims remap width rest n rowBase
            (drawRunCells mode prims remap (cells.take n) rowBase s) := rfl
  rcases hout : skipRuns skipLeft width runs 0 with ⟨sc, part, rest⟩
  rw [hout] at hspec
  cases part with
  | none =>
      obtain ⟨hwr, hcol⟩ := hspec
      have hcolx := hcol x
      rw [Nat.sub_zero] at hcolx
      rw [hstep, hout]
      by_cases hxsc : x < sc
      · rw [if_pos hxsc] at hcolx
        rw [hcolx,
          drawRuns_out mode prims remap width rest sc rowBase s _
            (Or.inl (by push_cast; omega))]
        rfl
      · rw [if_neg hxsc] at hcolx
        rw [hcolx]
        exact drawRuns_at mode prims remap width rest sc rowBase s x (by omega) hx hwr
  | some pr =>
      rcases pr with ⟨cs, n⟩
      obtain ⟨-, hm, -, hu, hwr, hcol⟩ := hspec
      have hcolx := hcol x
      rw [Nat.sub_zero] at hcolx
      have hutake : CellsUniform (cs.take n) := by
        rcases hu with h | h
        · exact Or.inl fun c hc => h c (List.take_subset _ _ hc)
        · exact Or.inr fun c hc => h c (List.take_subset _ _ hc)
      rw [hstep, hout]
      by_cases hxn : x < n
      · have hxcs : x < cs.length := by
          have := Nat.min_le_left cs.length width
          omega
        have hitk : x < (cs.take n).length := by
          simp only [List.length_take]
          omega
        rw [if_pos hxcs] at hcolx
        rw [hcolx, List.get?_eq_get hxcs,
          drawRuns_out mode prims remap width rest n rowBase _ _
            (Or.inl (by push_cast; omega))]
        have hget := drawRunCells_get mode prims remap (cs.take n) rowBase s x hitk hutake
        rw [hget, List.get_take' cs]
        rfl
      · have hncs : n = cs.length := by
          rcases min_choice cs.length width with h | h
          · omega
          · omega
        have hxcs : ¬ x < cs.length := by omega
        rw [if_neg hxcs] at hcolx
        rw [hcolx]
        have hrec := drawRuns_at mode prims remap width rest n rowBase
          (drawRunCells mode prims remap (cs.take n) rowBase s) x (by omega) hx hwr
        rw [hrec]
        have hout2 : pixAt (drawRunCells mode prims remap (cs.take n) rowBase s)
            (rowBase + (x : Int)) = pixAt s (rowBase + (x : Int)) := by
          refine drawRunCells_out mode prims remap _ rowBase s _ (Or.inr ?_)
          have : (cs.take n).length = n := by simp [List.length_take]; omega
          rw [this]
          push_cast
          omega
        rw [hout2, hncs]

theorem drawLines_out (mode : BlitterMode) (prims : ColourPrims) (remap : Nat → Nat)
    (skipLeft width : Nat) (pitch : Int) (hpitch : 0 < pitch) :
    ∀ (lns : List (List Run)) (h : Nat) (rowBase : Int) (s : DrawState) (q : Int),
      (∀ ln ∈ lns, ∀ r ∈ ln, RunWF r) → q < rowBase →
      pixAt (drawLines mode prims remap skipLeft width pitch lns h rowBase s) q =
        pixAt s q := by
  intro lns
  induction lns with
  | nil => intro h rowBase s q _ _; cases h <;> rfl
  | cons ln rest ih =>
      intro h rowBase s q hWF hq
      cases h with
      | zero => rfl
      | succ hh =>
          have hstep : drawLines mode prims remap skipLeft width pitch
              (ln :: rest) (hh + 1) rowBase s =
              drawLines mode prims remap skipLeft width pitch rest hh (rowBase + pitch)
                (drawRow mode prims remap skipLeft width ln rowBase s) := rfl
          rw [hstep,
            ih hh (rowBase + pitch) _ q
              (fun l hl => hWF l (List.mem_cons_of_mem ln hl)) (by omega)]
          exact drawRow_out mode prims remap skipLeft width ln rowBase s
            (hWF ln (List.mem_cons_self ln rest)) q (Or.inl hq)

theorem drawLines_at (mode : BlitterMode) (prims : ColourPrims) (remap : Nat → Nat)
    (skipLeft width : Nat) (pitch : Int) (hp : (width : Int) ≤ pitch) :
    ∀ (lns : List (List Run)) (h : Nat) (rowBase : Int) (s : DrawState) (y x : Nat),
      y < h → x < width → (∀ ln ∈ lns, ∀ r ∈ ln, RunWF r) →
      pixAt (drawLines mode prims remap skipLeft width pitch lns h rowBase s)
          (rowBase + (y : Int) * pitch + (x : Int)) =
        applyCell mode prims remap (colAt (lineAt lns y) (skipLeft + x))
          (pixAt s (rowBase + (y : Int) * pitch + (x : Int))) := by
  intro lns
  induction lns with
  | nil =>
      intro h rowBase s y x _ _ _
      cases h with
      | zero => rfl
      | succ hh =>
          show pixAt s _ = applyCell mode prims remap (colAt (lineAt [] y) (skipLeft + x))
            (pixAt s _)
          simp [lineAt, colAt, applyCell]
  | cons ln rest ih =>
      intro h rowBase s y x hy hx hWF
      have hpitch : 0 < pitch := by omega
      have hWFln : ∀ r ∈ ln, RunWF r := hWF ln (List.mem_cons_self ln rest)
      have hWFrest : ∀ l ∈ rest, ∀ r ∈ l, RunWF r :=
        fun l hl => hWF l (List.mem_cons_of_mem ln hl)
      cases h with
      | zero => omega
      | succ hh =>
          have hstep : drawLines mode prims remap skipLeft width pitch
              (ln :: rest) (hh + 1) rowBase s =
              drawLines mode prims remap skipLeft width pitch rest hh (rowBase + pitch)
                (drawRow mode prims remap skipLeft width ln rowBase s) := rfl
          rw [hstep]
          cases y with
          | zero =>
              have harith : rowBase + ((0 : Nat) : Int) * pitch + (x : Int) =
                  rowBase + (x : Int) := by push_cast; ring
              rw [harith,
                drawLines_out mode prims remap skipLeft width pitch hpitch rest hh
                  (rowBase + pitch) _ _ hWFrest (by omega)]
              exact drawRow_at mode prims remap skipLeft width ln rowBase s hWFln x hx
          | succ yy =>
              have harith : rowBase + ((yy + 1 : Nat) : Int) * pitch + (x : Int) =
                  (rowBase + pitch) + (yy : Int) * pitch + (x : Int) := by push_cast; ring
              rw [harith,
                ih hh (rowBase + pitch) _ yy x (by omega) hx hWFrest]
              have hyp : 0 ≤ (yy : Int) * pitch := mul_nonneg (by positivity) (by omega)
              have hframe : pixAt (drawRow mode prims remap skipLeft width ln rowBase s)
                  ((rowBase + pitch) + (yy : Int) * pitch + (x : Int)) =
                  pixAt s ((rowBase + pitch) + (yy : Int) * pitch + (x : Int)) := by
                refine drawRow_out mode prims remap skipLeft width ln rowBase s hWFln _
                  (Or.inr ?_)
                omega
              rw [hframe]
              rfl

/-- Pointwise characterization of `Draw<mode>`: the destination pixel of
window coordinate `(x, y)` is composed from source column
`skip_left + x` of source line `skip_top + y` by the policy of that
column's alpha class, reading the pre-draw destination; columns covered
by fully-transparent runs leave the destination untouched. -/
theorem Draw_at (mode : BlitterMode) (prims : ColourPrims) (remap : Nat → Nat)
    (skipTop skipLeft width height : Nat) (pitch base : Int)
    (lines : List (List Run)) (s : DrawState)
    (hWF : ∀ ln ∈ lines, ∀ r ∈ ln, RunWF r) (hp : (width : Int) ≤ pitch)
    (y x : Nat) (hy : y < height) (hx : x < width) :
    pixAt (Draw mode prims remap skipTop skipLeft width height pitch base lines s)
        (base + (y : Int) * pitch + (x : Int)) =
      applyCell mode prims remap (colAt (lineAt lines (skipTop + y)) (skipLeft + x))
        (pixAt s (base + (y : Int) * pitch + (x : Int))) := by
  have hdrop : ∀ ln ∈ lines.drop skipTop, ∀ r ∈ ln, RunWF r :=
    fun ln hl => hWF ln (List.drop_subset _ _ hl)
  have hline : lineAt (lines.drop skipTop) y = lineAt lines (skipTop + y) := by
    simp only [lineAt, List.get?_drop]
  rw [Draw, drawLines_at mode prims remap skipLeft width pitch hp
    (lines.drop skipTop) height base s y x hy hx hdrop, hline]

/-- C4: drawing with `skip_top = k, skip_left = j` produces, in the
rectangle actually drawn, output byte-identical (colour word and
animation byte) to drawing the full sprite with no skips and comparing
the same sub-rectangle, for every mode, sprite and clip offsets
satisfying the `BlitterParams` bounds invariant. -/
theorem C4_skip_clip_equivalence (mode : BlitterMode) (prims : ColourPrims)
    (remap : Nat → Nat) (j k wc hc W H : Nat) (pitch base : Int)
    (lines : List (List Run)) (s : DrawState)
    (hWF : ∀ ln ∈ lines, ∀ r ∈ ln, RunWF r)
    (hpc : (wc : Int) ≤ pitch) (hpW : (W : Int) ≤ pitch)
    (hjw : j + wc ≤ W) (hkh : k + hc ≤ H)
    (y x : Nat) (hy : y < hc) (hx : x < wc) :
    pixAt (Draw mode prims remap k j wc hc pitch
        (base + (j : Int) + (k : Int) * pitch) lines s)
      ((base + (j : Int) + (k : Int) * pitch) + (y : Int) * pitch + (x : Int)) =
    pixAt (Draw mode prims remap 0 0 W H pitch base lines s)
      (base + ((k + y : Nat) : Int) * pitch + ((j + x : Nat) : Int)) := by
  have haddr : (base + (j : Int) + (k : Int) * pitch) + (y : Int) * pitch + (x : Int) =
      base + ((k + y : Nat) : Int) * pitch + ((j + x : Nat) : Int) := by
    push_cast; ring
  rw [Draw_at mode prims remap k j wc hc pitch _ lines s hWF hpc y x hy hx,
    Draw_at mode prims remap 0 0 W H pitch base lines s hWF hpW (k + y) (j + x)
      (by omega) (by omega),
    haddr]
  simp

theorem C4_skip_clip_equivalence_witness :
    pixAt (Draw BlitterMode.Normal trivPrims (fun _ => 0) 1 1 1 1 2
        ((0 : Int) + (1 : Int) + (1 : Int) * 2)
        [[Run.col [⟨⟨1, 1, 1, 255⟩, 0⟩, ⟨⟨2, 2, 2, 255⟩, 0⟩]],
         [Run.col [⟨⟨3, 3, 3, 255⟩, 0⟩, ⟨⟨4, 4, 4, 255⟩, 0⟩]]]
        ⟨fun _ => ⟨9, 9, 9, 255⟩, fun _ => 0⟩)
      (((0 : Int) + (1 : Int) + (1 : Int) * 2) + (0 : Int) * 2 + (0 : Int)) =
    pixAt (Draw BlitterMode.Normal trivPrims (fun _ => 0) 0 0 2 2 2 0
        [[Run.col [⟨⟨1, 1, 1, 255⟩, 0⟩, ⟨⟨2, 2, 2, 255⟩, 0⟩]],
         [Run.col [⟨⟨3, 3, 3, 255⟩, 0⟩, ⟨⟨4, 4, 4, 255⟩, 0⟩]]]
        ⟨fun _ => ⟨9, 9, 9, 255⟩, fun _ => 0⟩)
      ((0 : Int) + ((1 : Int) + (0 : Int)) * 2 + ((1 : Int) + (0 : Int))) := by
  have h := C4_skip_clip_equivalence BlitterMode.Normal trivPrims (fun _ => 0)
    1 1 1 1 2 2 2 (0 : Int)
    [[Run.col [⟨⟨1, 1, 1, 255⟩, 0⟩, ⟨⟨2, 2, 2, 255⟩, 0⟩]],
     [Run.col [⟨⟨3, 3, 3, 255⟩, 0⟩, ⟨⟨4, 4, 4, 255⟩, 0⟩]]]
    ⟨fun _ => ⟨9, 9, 9, 255⟩, fun _ => 0⟩
    (by decide) (by decide) (by decide) (by decide) (by decide) 0 0
    (by decide) (by decide)
  exact_mod_cast h

/-- C5: in every blitter mode, a destination position whose source
column is covered by a fully-transparent run (`colAt` yields `none`) is
left byte-identical by the draw, for both the colour word and the
animation byte. -/
theorem C5_transparent_run_noop (mode : BlitterMode) (prims : ColourPrims)
    (remap : Nat → Nat) (skipTop skipLeft width height : Nat) (pitch base : Int)
    (lines : List (List Run)) (s : DrawState)
    (hWF : ∀ ln ∈ lines, ∀ r ∈ ln, RunWF r) (hp : (width : Int) ≤ pitch)
    (y x : Nat) (hy : y < height) (hx : x < width)
    (htrans : colAt (lineAt lines (skipTop + y)) (skipLeft + x) = none) :
    pixAt (Draw mode prims remap skipTop skipLeft width height pitch base lines s)
        (base + (y : Int) * pitch + (x : Int)) =
      pixAt s (base + (y : Int) * pitch + (x : Int)) := by
  rw [Draw_at mode prims remap skipTop skipLeft width height pitch base lines s
    hWF hp y x hy hx, htrans]
  rfl

theorem C5_transparent_run_noop_witness :
    pixAt (Draw BlitterMode.BlackRemap trivPrims (fun _ => 0) 0 0 3 1 3 0
        [[Run.trans 1, Run.col [⟨⟨7, 7, 7, 255⟩, 0⟩], Run.trans 1]]
        ⟨fun _ => ⟨9, 9, 9, 255⟩, fun _ => 4⟩)
      ((0 : Int) + (0 : Int) * 3 + (2 : Int)) =
    pixAt (⟨fun _ => ⟨9, 9, 9, 255⟩, fun _ => 4⟩ : DrawState)
      ((0 : Int) + (0 : Int) * 3 + (2 : Int)) := by
  have h := C5_transparent_run_noop BlitterMode.BlackRemap trivPrims (fun _ => 0)
    0 0 3 1 3 (0 : Int)
    [[Run.trans 1, Run.col [⟨⟨7, 7, 7, 255⟩, 0⟩], Run.trans 1]]
    ⟨fun _ => ⟨9, 9, 9, 255⟩, fun _ => 4⟩
    (by decide) (by decide) 0 2 (by decide) (by decide) (by decide)
  exact_mod_cast h

/-- C6: in ColourRemap and CrashRemap modes a covered source pixel with
animation class `m != 0` whose remap entry `remap[m]` is 0 has its write
skipped entirely: both the destination colour word and the destination
animation byte are unchanged. -/
theorem C6_remap_zero_skips_write (mode : BlitterMode) (prims : ColourPrims)
    (remap : Nat → Nat) (skipTop skipLeft width height : Nat) (pitch base : Int)
    (lines : List (List Run)) (s : DrawState)
    (hWF : ∀ ln ∈ lines, ∀ r ∈ ln, RunWF r) (hp : (width : Int) ≤ pitch)
    (hmode : mode = BlitterMode.ColourRemap ∨ mode = BlitterMode.CrashRemap)
    (y x : Nat) (hy : y < height) (hx : x < width) (c : Cell)
    (hcol : colAt (lineAt lines (skipTop + y)) (skipLeft + x) = some c)
    (hm : GB8 c.mEntry ≠ 0) (hr : remap (GB8 c.mEntry) = 0) :
    pixAt (Draw mode prims remap skipTop skipLeft width height pitch base lines s)
        (base + (y : Int) * pitch + (x : Int)) =
      pixAt s (base + (y : Int) * pitch + (x : Int)) := by
  rw [Draw_at mode prims remap skipTop skipLeft width height pitch base lines s
    hWF hp y x hy hx, hcol]
  show runEff mode prims remap c.px c _ = _
  rcases hmode with h | h <;> subst h <;> simp only [runEff] <;>
    by_cases ha : c.px.a = 255
  · rw [if_pos ha]; simp [effCROpq, hm, hr]
  · rw [if_neg ha]; simp [effCRTrl, hm, hr]
  · rw [if_pos ha]; simp [effCROpq, hm, hr]
  · rw [if_neg ha]; simp [effCRTrl, hm, hr]

theorem C6_remap_zero_skips_write_witness :
    (pixAt (Draw BlitterMode.ColourRemap trivPrims (fun m => if m = 5 then 0 else m)
        0 0 4 1 4 0
        [[Run.col [⟨⟨1, 0, 0, 255⟩, 5⟩, ⟨⟨0, 1, 0, 255⟩, 5⟩,
                   ⟨⟨0, 0, 1, 255⟩, 5⟩, ⟨⟨1, 1, 0, 255⟩, 5⟩]]]
        ⟨fun _ => ⟨9, 9, 9, 255⟩, fun _ => 2⟩)
      ((0 : Int) + (0 : Int) * 4 + (0 : Int)) =
    pixAt (⟨fun _ => ⟨9, 9, 9, 255⟩, fun _ => 2⟩ : DrawState)
      ((0 : Int) + (0 : Int) * 4 + (0 : Int))) ∧
    (pixAt (Draw BlitterMode.ColourRemap trivPrims (fun m => if m = 5 then 0 else m)
        0 0 4 1 4 0
        [[Run.col [⟨⟨1, 0, 0, 255⟩, 5⟩, ⟨⟨0, 1, 0, 255⟩, 5⟩,
                   ⟨⟨0, 0, 1, 255⟩, 5⟩, ⟨⟨1, 1, 0, 255⟩, 5⟩]]]
        ⟨fun _ => ⟨9, 9, 9, 255⟩, fun _ => 2⟩)
      ((0 : Int) + (0 : Int) * 4 + (3 : Int)) =
    pixAt (⟨fun _ => ⟨9, 9, 9, 255⟩, fun _ => 2⟩ : DrawState)
      ((0 : Int) + (0 : Int) * 4 + (3 : Int))) := by
  constructor
  · have h := C6_remap_zero_skips_write BlitterMode.ColourRemap trivPrims
      (fun m => if m = 5 then 0 else m) 0 0 4 1 4 (0 : Int)
      [[Run.col [⟨⟨1, 0, 0, 255⟩, 5⟩, ⟨⟨0, 1, 0, 255⟩, 5⟩,
                 ⟨⟨0, 0, 1, 255⟩, 5⟩, ⟨⟨1, 1, 0, 255⟩, 5⟩]]]
      ⟨fun _ => ⟨9, 9, 9, 255⟩, fun _ => 2⟩
      (by decide) (by decide) (Or.inl rfl) 0 0 (by decide) (by decide)
      ⟨⟨1, 0, 0, 255⟩, 5⟩ (by decide) (by decide) (by decide)
    exact_mod_cast h
  · have h := C6_remap_zero_skips_write BlitterMode.ColourRemap trivPrims
      (fun m => if m = 5 then 0 else m) 0 0 4 1 4 (0 : Int)
      [[Run.col [⟨⟨1, 0, 0, 255⟩, 5⟩, ⟨⟨0, 1, 0, 255⟩, 5⟩,
                 ⟨⟨0, 0, 1, 255⟩, 5⟩, ⟨⟨1, 1, 0, 255⟩, 5⟩]]]
      ⟨fun _ => ⟨9, 9, 9, 255⟩, fun _ => 2⟩
      (by decide) (by decide) (Or.inl rfl) 0 3 (by decide) (by decide)
      ⟨⟨1, 1, 0, 255⟩, 5⟩ (by decide) (by decide) (by decide)
    exact_mod_cast h

/-- C1 (as stated, refuted): in Normal mode the translucent composition
of a source pixel with alpha 128 and animation class `m = 5` leaves the
animation byte equal to 5, not 0 — the code (40bpp_anim.cpp line 304)
writes `*anim = m`, not `*anim = 0`, and the drawn pixel then holds a
non-zero animation byte together with an alpha-blended colour. -/
theorem C1_normal_translucent_counterexample :
    (Draw BlitterMode.Normal trivPrims (fun _ => 0) 0 0 1 1 1 0
      [[Run.col [⟨⟨10, 20, 30, 128⟩, 5⟩]]]
      ⟨fun _ => ⟨1, 2, 3, 255⟩, fun _ => 0⟩).anim 0 = 5 ∧ (5 : Nat) ≠ 0 := by
  exact ⟨by decide, by decide⟩

/-- C1 (amended): in Normal mode, a destination pixel composed from a
translucent source pixel (0 < a < 255) gets its animation byte set to
the run entry's low byte `m` — so it is cleared exactly when `m == 0`
(the `m != 0` translucent blend keeps the animation class, line 304). -/
theorem C1_normal_translucent_anim (prims : ColourPrims)
    (remap : Nat → Nat) (skipTop skipLeft width height : Nat) (pitch base : Int)
    (lines : List (List Run)) (s : DrawState)
    (hWF : ∀ ln ∈ lines, ∀ r ∈ ln, RunWF r) (hp : (width : Int) ≤ pitch)
    (y x : Nat) (hy : y < height) (hx : x < width) (c : Cell)
    (hcol : colAt (lineAt lines (skipTop + y)) (skipLeft + x) = some c)
    (ha0 : 0 < c.px.a) (ha : c.px.a < 255) :
    (Draw BlitterMode.Normal prims remap skipTop skipLeft width height pitch base
        lines s).anim (base + (y : Int) * pitch + (x : Int)) = GB8 c.mEntry := by
  have h := Draw_at BlitterMode.Normal prims remap skipTop skipLeft width height
    pitch base lines s hWF hp y x hy hx
  rw [hcol] at h
  have h2 := congrArg Prod.snd h
  show ((Draw BlitterMode.Normal prims remap skipTop skipLeft width height pitch base
    lines s).anim (base + (y : Int) * pitch + (x : Int))) = GB8 c.mEntry
  rw [show ((Draw BlitterMode.Normal prims remap skipTop skipLeft width height pitch
      base lines s).anim (base + (y : Int) * pitch + (x : Int))) =
      (pixAt (Draw BlitterMode.Normal prims remap skipTop skipLeft width height pitch
        base lines s) (base + (y : Int) * pitch + (x : Int))).2 from rfl, h2]
  show (runEff BlitterMode.Normal prims remap c.px c _).2 = GB8 c.mEntry
  have hane : ¬ c.px.a = 255 := by omega
  simp only [runEff, if_neg hane, effNormalTrl]
  by_cases hm : GB8 c.mEntry = 0
  · simp [hm]
  · simp [hm]

theorem C1_normal_translucent_anim_witness :
    (Draw BlitterMode.Normal trivPrims (fun _ => 0) 0 0 1 1 1 0
      [[Run.col [⟨⟨10, 20, 30, 128⟩, 7⟩]]]
      ⟨fun _ => ⟨1, 2, 3, 255⟩, fun _ => 0⟩).anim
        ((0 : Int) + (0 : Int) * 1 + (0 : Int)) = GB8 7 := by
  have h := C1_normal_translucent_anim trivPrims (fun _ => 0) 0 0 1 1 1 (0 : Int)
    [[Run.col [⟨⟨10, 20, 30, 128⟩, 7⟩]]]
    ⟨fun _ => ⟨1, 2, 3, 255⟩, fun _ => 0⟩
    (by decide) (by decide) 0 0 (by decide) (by decide)
    ⟨⟨10, 20, 30, 128⟩, 7⟩ (by decide) (by decide) (by decide)
  exact_mod_cast h

theorem drawRectRow_at (p : Nat) :
    ∀ (w : Nat) (s : DrawState) (off : Int) (q : Int),
      pixAt (drawRectRow s off p w) q =
        if off ≤ q ∧ q < off + (w : Int) then (blackColour, p) else pixAt s q := by
  intro w
  induction w with
  | zero =>
      intro s off q
      have : ¬(off ≤ q ∧ q < off + ((0 : Nat) : Int)) := by push_cast; omega
      rw [if_neg this]
      rfl
  | succ ww ih =>
      intro s off q
      show pixAt (drawRectRow (writePix s off (blackColour, p)) (off + 1) p ww) q = _
      rw [ih]
      by_cases h1 : (off + 1) ≤ q ∧ q < (off + 1) + (ww : Int)
      · rw [if_pos h1, if_pos (by push_cast; omega)]
      · rw [if_neg h1]
        by_cases h0 : q = off
        · rw [h0, pixAt_writePix_self, if_pos (by push_cast; omega)]
        · rw [pixAt_writePix_ne s off q _ h0, if_neg (by push_cast; push_cast at h1; omega)]

theorem DrawRect_const_or (pitch : Int) (p : Nat) (w : Nat) :
    ∀ (h : Nat) (s : DrawState) (off : Int) (q : Int),
      pixAt (DrawRect s off pitch p w h) q = (blackColour, p) ∨
      pixAt (DrawRect s off pitch p w h) q = pixAt s q := by
  intro h
  induction h with
  | zero => intro s off q; right; rfl
  | succ hh ih =>
      intro s off q
      have hstep : pixAt (DrawRect s off pitch p w (hh + 1)) q =
          pixAt (DrawRect (drawRectRow s off p w) (off + pitch) pitch p w hh) q := rfl
      rcases ih (drawRectRow s off p w) (off + pitch) q with hc | hc
      · left
        rw [hstep]
        exact hc
      · by_cases hin : off ≤ q ∧ q < off + (w : Int)
        · left
          rw [hstep, hc, drawRectRow_at, if_pos hin]
        · right
          rw [hstep, hc, drawRectRow_at, if_neg hin]

theorem DrawRect_in (pitch : Int) (p : Nat) (w : Nat) :
    ∀ (h : Nat) (s : DrawState) (off : Int) (i j : Nat), i < w → j < h →
      pixAt (DrawRect s off pitch p w h) (off + (j : Int) * pitch + (i : Int)) =
        (blackColour, p) := by
  intro h
  induction h with
  | zero => intro s off i j _ hj; omega
  | succ hh ih =>
      intro s off i j hi hj
      show pixAt (DrawRect (drawRectRow s off p w) (off + pitch) pitch p w hh)
          (off + (j : Int) * pitch + (i : Int)) = (blackColour, p)
      cases j with
      | zero =>
          have hrow : pixAt (drawRectRow s off p w)
              (off + ((0 : Nat) : Int) * pitch + (i : Int)) = (blackColour, p) := by
            rw [drawRectRow_at, if_pos (by push_cast; omega)]
          rcases DrawRect_const_or pitch p w hh (drawRectRow s off p w) (off + pitch)
              (off + ((0 : Nat) : Int) * pitch + (i : Int)) with hc | hc
          · exact hc
          · rw [hc, hrow]
      | succ jj =>
          have harith : off + ((jj + 1 : Nat) : Int) * pitch + (i : Int) =
              (off + pitch) + (jj : Int) * pitch + (i : Int) := by push_cast; ring
          rw [harith]
          exact ih (drawRectRow s off p w) (off + pitch) i jj hi (by omega)

/-- C10: with animation enabled, SetPixel and DrawRect never store the
requested colour in the colour buffer — every covered pixel gets solid
black in the colour buffer and the requested palette index `p` in the
animation buffer at the same offset. -/
theorem C10_setpixel_drawrect_black (s : DrawState) (videoOff pitch : Int)
    (x y : Int) (p : Nat) (off : Int) (w h : Nat) (i j : Nat)
    (hi : i < w) (hj : j < h) :
    pixAt (SetPixel s videoOff pitch x y p) (videoOff + x + y * pitch) =
      (blackColour, p) ∧
    pixAt (DrawRect s off pitch p w h) (off + (j : Int) * pitch + (i : Int)) =
      (blackColour, p) := by
  constructor
  · exact pixAt_writePix_self s _ _
  · exact DrawRect_in pitch p w h s off i j hi hj

theorem C10_setpixel_drawrect_black_witness :
    pixAt (SetPixel ⟨fun _ => ⟨9, 9, 9, 255⟩, fun _ => 0⟩ 0 4 1 1 37)
        ((0 : Int) + 1 + 1 * 4) = (blackColour, 37) ∧
    pixAt (DrawRect ⟨fun _ => ⟨9, 9, 9, 255⟩, fun _ => 0⟩ 0 4 37 2 2)
        ((0 : Int) + (1 : Int) * 4 + (1 : Int)) = (blackColour, 37) := by
  have hC := C10_setpixel_drawrect_black ⟨fun _ => ⟨9, 9, 9, 255⟩, fun _ => 0⟩
    (0 : Int) (4 : Int) (1 : Int) (1 : Int) 37 (0 : Int) 2 2 1 1
    (by decide) (by decide)
  exact_mod_cast hC

/-- C8: with animation enabled, the public Draw entry point dispatches
every recognized BlitterMode value to its specialization, and every
unrecognized underlying mode value hits NOT_REACHED (a fatal abort) —
it never silently approximates an unknown mode. -/
theorem C8_dispatch_total_or_fatal :
    ∀ code : Nat,
      (DrawDispatch false true code = DispatchResult.fatal ∧ decodeMode code = none) ∨
      (∃ m, decodeMode code = some m ∧
        DrawDispatch false true code = DispatchResult.dispatched m) := by
  intro code
  match code with
  | 0 => exact Or.inr ⟨BlitterMode.Normal, rfl, rfl⟩
  | 1 => exact Or.inr ⟨BlitterMode.ColourRemap, rfl, rfl⟩
  | 2 => exact Or.inr ⟨BlitterMode.Transparent, rfl, rfl⟩
  | 3 => exact Or.inr ⟨BlitterMode.TransparentRemap, rfl, rfl⟩
  | 4 => exact Or.inr ⟨BlitterMode.CrashRemap, rfl, rfl⟩
  | 5 => exact Or.inr ⟨BlitterMode.BlackRemap, rfl, rfl⟩
  | n + 6 => exact Or.inl ⟨rfl, rfl⟩

/-- C9 (as stated, refuted): `BufferSize(2, 3)` returns 30, not the 6
bytes of a one-byte-per-pixel 2×3 animation region — the returned size
also covers a 4-byte colour word per pixel. -/
theorem C9_buffersize_counterexample :
    BufferSize 2 3 = 30 ∧ BufferSize 2 3 ≠ 2 * 3 * 1 := by
  exact ⟨rfl, by decide⟩

/-- C9 (amended): `BufferSize(width, height)` returns the byte size of
the combined per-pixel capture of a `width × height` region: four colour
bytes plus exactly one animation byte for every pixel. -/
theorem C9_buffersize_amended :
    ∀ w h : Nat, BufferSize w h = 4 * (w * h) + 1 * (w * h) := by
  intro w h
  show (4 + 1) * w * h = 4 * (w * h) + 1 * (w * h)
  ring

/-- C7 (as stated, refuted): with a null animation buffer, CopyFromBuffer
does not perform its colour-buffer work: restoring a 1×1 capture whose
colour bytes are 1,2,3,4 leaves the zeroed colour buffer at 0, whereas
with an animation buffer present the same restore writes the word
67305985 — the null-buffer path returns before copying anything
(40bpp_anim.cpp line 417). -/
theorem C7_null_anim_counterexample :
    (CopyFromBufferTop (fun _ => 0) none 0 1 1 1 [1, 2, 3, 4, 5]).1 0 = 0 ∧
    (CopyFromBufferTop (fun _ => 0) (some fun _ => 0) 0 1 1 1 [1, 2, 3, 4, 5]).1 0 =
      67305985 ∧ (67305985 : Nat) ≠ 0 := by
  refine ⟨rfl, by decide, by decide⟩

/-- C7 (amended): a null animation buffer (or globally disabled
animation) makes Draw delegate to the non-animated 32bpp blitter, whose
behaviour is the colour projection of an animated draw with all
animation bytes forced to 0; CopyFromBuffer and CopyToBuffer, however,
return without doing any work at all when the animation buffer is null —
they do not even perform their colour-buffer copies. -/
theorem C7_null_anim_degrade :
    (∀ code : Nat, DrawDispatch true true code = DispatchResult.delegated) ∧
    (∀ (code : Nat) (b : Bool), DrawDispatch b false code = DispatchResult.delegated) ∧
    (∀ (mode : BlitterMode) (prims : ColourPrims) (remap : Nat → Nat)
        (skipTop skipLeft width height : Nat) (pitch base : Int)
        (lines : List (List Run)) (dst0 : Int → Colour),
      draw32 mode prims remap skipTop skipLeft width height pitch base lines dst0 =
        (Draw mode prims remap skipTop skipLeft width height pitch base lines
          ⟨dst0, fun _ => 0⟩).dst) ∧
    (∀ (colour : Int → Nat) (off pitch : Int) (w h : Nat) (src : List Nat),
      CopyFromBufferTop colour none off pitch w h src = (colour, none)) ∧
    (∀ (colour : Int → Nat) (off pitch : Int) (w h : Nat),
      CopyToBufferTop colour none off pitch w h = none) := by
  refine ⟨fun code => rfl, fun code b => ?_, fun _ _ _ _ _ _ _ _ _ _ _ => rfl,
    fun _ _ _ _ _ _ => rfl, fun _ _ _ _ _ => rfl⟩
  cases b <;> rfl

theorem bytesToWord_wordBytes (w : Nat) (hw : w < 4294967296) :
    bytesToWord (w % 256) (w / 256 % 256) (w / 65536 % 256) (w / 16777216 % 256) = w := by
  show w % 256 + 256 * (w / 256 % 256) + 65536 * (w / 65536 % 256) +
    16777216 * (w / 16777216 % 256) = w
  omega

theorem bytesToWords_wordsToBytes (ws : List Nat) (h : ∀ w ∈ ws, w < 4294967296) :
    bytesToWords (wordsToBytes ws) = ws := by
  induction ws with
  | nil => rfl
  | cons w rest ih =>
      have hw : w < 4294967296 := h w (List.mem_cons_self w rest)
      show bytesToWord (w % 256) (w / 256 % 256) (w / 65536 % 256) (w / 16777216 % 256) ::
          bytesToWords (wordsToBytes rest) = w :: rest
      rw [bytesToWord_wordBytes w hw,
        ih fun v hv => h v (List.mem_cons_of_mem w hv)]

theorem readRow_length (buf : Int → Nat) :
    ∀ (n : Nat) (off : Int), (readRow buf off n).length = n := by
  intro n
  induction n with
  | zero => intro off; rfl
  | succ nn ih => intro off; show (buf off :: readRow buf (off + 1) nn).length = nn + 1; simp [ih]

theorem wordsToBytes_length (ws : List Nat) :
    (wordsToBytes ws).length = 4 * ws.length := by
  induction ws with
  | nil => rfl
  | cons w rest ih =>
      show (wordBytes w ++ wordsToBytes rest).length = 4 * (rest.length + 1)
      simp [wordBytes, ih]
      ring

theorem readRow_lt (buf : Int → Nat) (bound : Nat) (hb : ∀ p : Int, buf p < bound) :
    ∀ (n : Nat) (off : Int), ∀ v ∈ readRow buf off n, v < bound := by
  intro n
  induction n with
  | zero => intro off v hv; cases hv
  | succ nn ih =>
      intro off v hv
      rcases List.mem_cons.mp hv with h | h
      · rw [h]; exact hb off
      · exact ih (off + 1) v h

theorem writeRow_readRow (buf : Int → Nat) :
    ∀ (n : Nat) (off : Int), writeRow buf off (readRow buf off n) = buf := by
  intro n
  induction n with
  | zero => intro off; rfl
  | succ nn ih =>
      intro off
      show writeRow (fun q => if q = off then buf off else buf q) (off + 1)
          (readRow buf (off + 1) nn) = buf
      have hupd : (fun q => if q = off then buf off else buf q) = buf := by
        funext q
        by_cases h : q = off
        · rw [if_pos h, h]
        · rw [if_neg h]
      rw [hupd]
      exact ih (off + 1)

theorem CopyFromBuffer_CopyToBuffer (pitch : Int) (w : Nat) :
    ∀ (h : Nat) (off : Int) (colour anim : Int → Nat),
      (∀ p : Int, colour p < 4294967296) →
      CopyFromBuffer colour anim off pitch w h
          (CopyToBuffer colour anim off pitch w h) = (colour, anim) := by
  intro h
  induction h with
  | zero => intro off colour anim _; rfl
  | succ hh ih =>
      intro off colour anim hc
      have hsrc : CopyToBuffer colour anim off pitch w (hh + 1) =
          wordsToBytes (readRow colour off w) ++
            (readRow anim off w ++ CopyToBuffer colour anim (off + pitch) pitch w hh) := by
        show wordsToBytes (readRow colour off w) ++ readRow anim off w ++
            CopyToBuffer colour anim (off + pitch) pitch w hh = _
        rw [List.append_assoc]
      have hlenR : (wordsToBytes (readRow colour off w)).length = 4 * w := by
        rw [wordsToBytes_length, readRow_length]
      have hlenA : (readRow anim off w).length = w := readRow_length anim w off
      show CopyFromBuffer colour anim off pitch w (hh + 1)
          (CopyToBuffer colour anim off pitch w (hh + 1)) = (colour, anim)
      rw [hsrc]
      show CopyFromBuffer colour anim off pitch w (hh + 1)
          (wordsToBytes (readRow colour off w) ++
            (readRow anim off w ++ CopyToBuffer colour anim (off + pitch) pitch w hh)) =
          (colour, anim)
      have hstep : ∀ src : List Nat,
          CopyFromBuffer colour anim off pitch w (hh + 1) src =
          CopyFromBuffer (writeRow colour off (bytesToWords (src.take (4 * w))))
            (writeRow anim off ((src.drop (4 * w)).take w))
            (off + pitch) pitch w hh ((src.drop (4 * w)).drop w) := fun src => rfl
      rw [hstep]
      rw [List.take_left' hlenR, List.drop_left' hlenR]
      rw [bytesToWords_wordsToBytes _ (readRow_lt colour 4294967296 hc w off),
        writeRow_readRow colour w off]
      rw [List.take_left' hlenA, List.drop_left' hlenA]
      rw [writeRow_readRow anim w off]
      exact ih (off + pitch) colour anim hc

/-- C2: capturing a rectangle with CopyToBuffer and restoring the
captured bytes with CopyFromBuffer at the same origin leaves both the
colour buffer and the animation buffer byte-identical to their
pre-capture state: capture followed by restore is the identity on both
buffers (each row is stored as its `width` colour words followed by its
`width` animation bytes). -/
theorem C2_capture_restore_roundtrip (colour anim : Int → Nat) (off pitch : Int)
    (w h : Nat) (hc : ∀ p : Int, colour p < 4294967296) :
    CopyFromBufferTop colour (some anim) off pitch w h
        (CopyToBuffer colour anim off pitch w h) = (colour, some anim) := by
  show (let r := CopyFromBuffer colour anim off pitch w h
          (CopyToBuffer colour anim off pitch w h)
        ((r.1, some r.2) : (Int → Nat) × Option (Int → Nat))) = (colour, some anim)
  rw [CopyFromBuffer_CopyToBuffer pitch w h off colour anim hc]

theorem C2_capture_restore_roundtrip_witness :
    CopyFromBufferTop (fun _ => 42) (some fun _ => 7) 0 5 2 2
        (CopyToBuffer (fun _ => 42) (fun _ => 7) 0 5 2 2) =
      ((fun _ => 42), some fun _ => 7) :=
  C2_capture_restore_roundtrip (fun _ => 42) (fun _ => 7) 0 5 2 2
    (fun _ => by norm_num)

theorem MovePixels_out (tw : Nat) (pitch : Int) :
    ∀ (th : Nat) (src dst : Int) (buf : Int → Nat) (p : Int),
      (∀ i : Nat, i < th →
        ¬(dst + (i : Int) * pitch ≤ p ∧ p < dst + (i : Int) * pitch + (tw : Int))) →
      MovePixels buf src dst tw th pitch p = buf p := by
  intro th
  induction th with
  | zero => intro src dst buf p _; rfl
  | succ t ih =>
      intro src dst buf p hout
      show MovePixels (moveRow buf src dst tw) (src + pitch) (dst + pitch) tw t pitch p =
        buf p
      have hrec : ∀ i : Nat, i < t →
          ¬((dst + pitch) + (i : Int) * pitch ≤ p ∧
            p < (dst + pitch) + (i : Int) * pitch + (tw : Int)) := by
        intro i hi
        have h := hout (i + 1) (by omega)
        have harith : dst + ((i + 1 : Nat) : Int) * pitch =
            (dst + pitch) + (i : Int) * pitch := by push_cast; ring
        rw [harith] at h
        exact h
      rw [ih (src + pitch) (dst + pitch) _ p hrec]
      have h0 := hout 0 (by omega)
      have h0a : ¬(dst ≤ p ∧ p < dst + (tw : Int)) := by
        intro hcon
        exact h0 (by constructor <;> push_cast <;> omega)
      show (if dst ≤ p ∧ p < dst + (tw : Int) then buf (src + (p - dst)) else buf p) = buf p
      rw [if_neg h0a]

theorem MovePixels_in (tw : Nat) (pitch : Int)
    (htw : (tw : Int) ≤ pitch ∨ (tw : Int) ≤ -pitch) :
    ∀ (th : Nat) (src dst : Int) (buf : Int → Nat) (i : Nat) (p : Int),
      (∀ k : Nat, 0 < k → k < th →
        ((k : Int) * pitch - (dst - src) ≤ -(tw : Int) ∨
          (tw : Int) ≤ (k : Int) * pitch - (dst - src))) →
      i < th → dst + (i : Int) * pitch ≤ p → p < dst + (i : Int) * pitch + (tw : Int) →
      MovePixels buf src dst tw th pitch p = buf (p - (dst - src)) := by
  intro th
  induction th with
  | zero => intro _ _ _ i _ _ hi _ _; omega
  | succ t ih =>
      intro src dst buf i p hcross hi hp1 hp2
      show MovePixels (moveRow buf src dst tw) (src + pitch) (dst + pitch) tw t pitch p =
        buf (p - (dst - src))
      cases i with
      | zero =>
          have hp1a : dst ≤ p := by push_cast at hp1; omega
          have hp2a : p < dst + (tw : Int) := by push_cast at hp2; omega
          have hout : ∀ k : Nat, k < t →
              ¬((dst + pitch) + (k : Int) * pitch ≤ p ∧
                p < (dst + pitch) + (k : Int) * pitch + (tw : Int)) := by
            intro k hk hcon
            have hkp : ((k : Int) + 1) * pitch = (k : Int) * pitch + pitch := by ring
            rcases htw with hl | hr
            · have hpn : (0 : Int) ≤ pitch := by
                have : (0 : Int) ≤ (tw : Int) := by positivity
                omega
              have hmul : (1 : Int) * pitch ≤ ((k : Int) + 1) * pitch :=
                mul_le_mul_of_nonneg_right (by omega) hpn
              rw [one_mul, hkp] at hmul
              have : (k : Int) * pitch + pitch + dst ≤ p := by
                have := hcon.1
                omega
              omega
            · have hpn : pitch ≤ 0 := by
                have : (0 : Int) ≤ (tw : Int) := by positivity
                omega
              have hmul : ((k : Int) + 1) * pitch ≤ (1 : Int) * pitch :=
                mul_le_mul_of_nonpos_right (by omega) hpn
              rw [one_mul, hkp] at hmul
              have hub : p < (k : Int) * pitch + pitch + dst + (tw : Int) := by
                have := hcon.2
                omega
              omega
          rw [MovePixels_out tw pitch t (src + pitch) (dst + pitch) _ p hout]
          show (if dst ≤ p ∧ p < dst + (tw : Int) then buf (src + (p - dst)) else buf p) =
            buf (p - (dst - src))
          rw [if_pos ⟨hp1a, hp2a⟩]
          congr 1
          ring
      | succ j =>
          have hD : (dst + pitch) - (src + pitch) = dst - src := by ring
          have hcross2 : ∀ k : Nat, 0 < k → k < t →
              ((k : Int) * pitch - ((dst + pitch) - (src + pitch)) ≤ -(tw : Int) ∨
                (tw : Int) ≤ (k : Int) * pitch - ((dst + pitch) - (src + pitch))) := by
            intro k h1 h2
            rw [hD]
            exact hcross k h1 (by omega)
          have harith : dst + ((j + 1 : Nat) : Int) * pitch =
              (dst + pitch) + (j : Int) * pitch := by push_cast; ring
          rw [harith] at hp1 hp2
          rw [ih (src + pitch) (dst + pitch) (moveRow buf src dst tw) j p hcross2
            (by omega) hp1 hp2, hD]
          have hj1 := hcross (j + 1) (by omega) (by omega)
          have hjp : ((j + 1 : Nat) : Int) * pitch = (j : Int) * pitch + pitch := by
            push_cast; ring
          rw [hjp] at hj1
          have hnotin : ¬(dst ≤ p - (dst - src) ∧ p - (dst - src) < dst + (tw : Int)) := by
            intro hcon
            rcases hj1 with hl | hr
            · have := hcon.1; omega
            · have := hcon.2; omega
          show (if dst ≤ p - (dst - src) ∧ p - (dst - src) < dst + (tw : Int) then
              buf (src + ((p - (dst - src)) - dst)) else buf (p - (dst - src))) =
            buf (p - (dst - src))
          rw [if_neg hnotin]

theorem scrollGeom_conserve (buf : Int → Nat) (pitch left top width height sx sy : Int)
    (hP : width ≤ pitch) (x y : Int)
    (hx1 : left + max sx 0 ≤ x) (hx2 : x < left + width + min sx 0)
    (hy1 : top + max sy 0 ≤ y) (hy2 : y < top + height + min sy 0) :
    scrollGeom buf pitch left top width height sx sy (y * pitch + x) =
      buf ((y - sy) * pitch + (x - sx)) := by
  by_cases hsy : 0 < sy
  · have hymax : max sy 0 = sy := max_eq_left (by omega)
    have hymin : min sy 0 = 0 := min_eq_right (by omega)
    rw [hymax] at hy1
    rw [hymin] at hy2
    have hsyh : sy < height := by omega
    have hthv : (((height - sy).toNat : Nat) : Int) = height - sy :=
      Int.toNat_of_nonneg (by omega)
    have hiv : (((top + height - 1 - y).toNat : Nat) : Int) = top + height - 1 - y :=
      Int.toNat_of_nonneg (by omega)
    have hi : (top + height - 1 - y).toNat < (height - sy).toNat := by
      have : (((top + height - 1 - y).toNat : Nat) : Int) <
          (((height - sy).toNat : Nat) : Int) := by rw [hiv, hthv]; omega
      exact_mod_cast this
    by_cases hsx : 0 ≤ sx
    · have hxmax : max sx 0 = sx := max_eq_left hsx
      have hxmin : min sx 0 = 0 := min_eq_right hsx
      rw [hxmax] at hx1
      rw [hxmin] at hx2
      have hsxw : sx < width := by omega
      have hP0 : 0 < pitch := by omega
      have htwv : (((width + -sx).toNat : Nat) : Int) = width + -sx :=
        Int.toNat_of_nonneg (by omega)
      simp only [scrollGeom, if_pos hsy, if_pos hsx]
      have hrow : (left + (top + height - 1) * pitch + sx) +
          (((top + height - 1 - y).toNat : Nat) : Int) * (-pitch) =
          left + sx + y * pitch := by rw [hiv]; ring
      have hmp := MovePixels_in ((width + -sx).toNat) (-pitch)
        (Or.inr (by rw [htwv, neg_neg]; omega))
        ((height - sy).toNat)
        (left + (top + height - 1) * pitch - sy * pitch)
        (left + (top + height - 1) * pitch + sx)
        buf ((top + height - 1 - y).toNat) (y * pitch + x)
        (by
          intro k hk1 hk2
          left
          have hd : (left + (top + height - 1) * pitch + sx) -
              (left + (top + height - 1) * pitch - sy * pitch) = sy * pitch + sx := by ring
          rw [hd, htwv]
          have hkk : (1 : Int) ≤ (k : Int) := by exact_mod_cast hk1
          have hkP : (1 : Int) * pitch ≤ (k : Int) * pitch :=
            mul_le_mul_of_nonneg_right hkk (le_of_lt hP0)
          have hsyP : (1 : Int) * pitch ≤ sy * pitch :=
            mul_le_mul_of_nonneg_right (by omega) (le_of_lt hP0)
          rw [one_mul] at hkP hsyP
          have hkneg : (k : Int) * (-pitch) = -((k : Int) * pitch) := by ring
          rw [hkneg]
          linarith)
        hi
        (by rw [hrow]; linarith)
        (by rw [hrow, htwv]; linarith)
      rw [hmp]
      congr 1
      ring
    · have hxmax : max sx 0 = 0 := max_eq_right (by omega)
      have hxmin : min sx 0 = sx := min_eq_left (by omega)
      rw [hxmax] at hx1
      rw [hxmin] at hx2
      have hsxw : -width < sx := by omega
      have hP0 : 0 < pitch := by omega
      have htwv : (((width + sx).toNat : Nat) : Int) = width + sx :=
        Int.toNat_of_nonneg (by omega)
      simp only [scrollGeom, if_pos hsy, if_neg hsx]
      have hrow : (left + (top + height - 1) * pitch) +
          (((top + height - 1 - y).toNat : Nat) : Int) * (-pitch) =
          left + y * pitch := by rw [hiv]; ring
      have hmp := MovePixels_in ((width + sx).toNat) (-pitch)
        (Or.inr (by rw [htwv, neg_neg]; omega))
        ((height - sy).toNat)
        (left + (top + height - 1) * pitch - sy * pitch - sx)
        (left + (top + height - 1) * pitch)
        buf ((top + height - 1 - y).toNat) (y * pitch + x)
        (by
          intro k hk1 hk2
          left
          have hd : (left + (top + height - 1) * pitch) -
              (left + (top + height - 1) * pitch - sy * pitch - sx) =
              sy * pitch + sx := by ring
          rw [hd, htwv]
          have hkk : (1 : Int) ≤ (k : Int) := by exact_mod_cast hk1
          have hkP : (1 : Int) * pitch ≤ (k : Int) * pitch :=
            mul_le_mul_of_nonneg_right hkk (le_of_lt hP0)
          have hsyP : (1 : Int) * pitch ≤ sy * pitch :=
            mul_le_mul_of_nonneg_right (by omega) (le_of_lt hP0)
          rw [one_mul] at hkP hsyP
          have hkneg : (k : Int) * (-pitch) = -((k : Int) * pitch) := by ring
          rw [hkneg]
          linarith)
        hi
        (by rw [hrow]; linarith)
        (by rw [hrow, htwv]; linarith)
      rw [hmp]
      congr 1
      ring
  · have hymax : max sy 0 = 0 := max_eq_right (by omega)
    have hymin : min sy 0 = sy := min_eq_left (by omega)
    rw [hymax] at hy1
    rw [hymin] at hy2
    have hsyh : -height < sy := by omega
    have hthv : (((height + sy).toNat : Nat) : Int) = height + sy :=
      Int.toNat_of_nonneg (by omega)
    have hiv : (((y - top).toNat : Nat) : Int) = y - top :=
      Int.toNat_of_nonneg (by omega)
    have hi : (y - top).toNat < (height + sy).toNat := by
      have : (((y - top).toNat : Nat) : Int) <
          (((height + sy).toNat : Nat) : Int) := by rw [hiv, hthv]; omega
      exact_mod_cast this
    by_cases hsx : 0 ≤ sx
    · have hxmax : max sx 0 = sx := max_eq_left hsx
      have hxmin : min sx 0 = 0 := min_eq_right hsx
      rw [hxmax] at hx1
      rw [hxmin] at hx2
      have hsxw : sx < width := by omega
      have hP0 : 0 < pitch := by omega
      have htwv : (((width + -sx).toNat : Nat) : Int) = width + -sx :=
        Int.toNat_of_nonneg (by omega)
      simp only [scrollGeom, if_neg hsy, if_pos hsx]
      have hrow : (left + top * pitch + sx) +
          (((y - top).toNat : Nat) : Int) * pitch = left + sx + y * pitch := by
        rw [hiv]; ring
      have hmp := MovePixels_in ((width + -sx).toNat) pitch
        (Or.inl (by rw [htwv]; omega))
        ((height + sy).toNat)
        (left + top * pitch - sy * pitch)
        (left + top * pitch + sx)
        buf ((y - top).toNat) (y * pitch + x)
        (by
          intro k hk1 hk2
          right
          have hd : (left + top * pitch + sx) - (left + top * pitch - sy * pitch) =
              sy * pitch + sx := by ring
          rw [hd, htwv]
          have hkk : (1 : Int) ≤ (k : Int) := by exact_mod_cast hk1
          have hkP : (1 : Int) * pitch ≤ (k : Int) * pitch :=
            mul_le_mul_of_nonneg_right hkk (le_of_lt hP0)
          have hsyP : sy * pitch ≤ 0 * pitch :=
            mul_le_mul_of_nonneg_right (by omega) (le_of_lt hP0)
          rw [one_mul] at hkP
          rw [zero_mul] at hsyP
          linarith)
        hi
        (by rw [hrow]; linarith)
        (by rw [hrow, htwv]; linarith)
      rw [hmp]
      congr 1
      ring
    · have hxmax : max sx 0 = 0 := max_eq_right (by omega)
      have hxmin : min sx 0 = sx := min_eq_left (by omega)
      rw [hxmax] at hx1
      rw [hxmin] at hx2
      have hsxw : -width < sx := by omega
      have hP0 : 0 < pitch := by omega
      have htwv : (((width + sx).toNat : Nat) : Int) = width + sx :=
        Int.toNat_of_nonneg (by omega)
      simp only [scrollGeom, if_neg hsy, if_neg hsx]
      have hrow : (left + top * pitch) +
          (((y - top).toNat : Nat) : Int) * pitch = left + y * pitch := by
        rw [hiv]; ring
      have hmp := MovePixels_in ((width + sx).toNat) pitch
        (Or.inl (by rw [htwv]; omega))
        ((height + sy).toNat)
        (left + top * pitch - sy * pitch - sx)
        (left + top * pitch)
        buf ((y - top).toNat) (y * pitch + x)
        (by
          intro k hk1 hk2
          right
          have hd : (left + top * pitch) - (left + top * pitch - sy * pitch - sx) =
              sy * pitch + sx := by ring
          rw [hd, htwv]
          have hkk : (1 : Int) ≤ (k : Int) := by exact_mod_cast hk1
          have hkP : (1 : Int) * pitch ≤ (k : Int) * pitch :=
            mul_le_mul_of_nonneg_right hkk (le_of_lt hP0)
          have hsyP : sy * pitch ≤ 0 * pitch :=
            mul_le_mul_of_nonneg_right (by omega) (le_of_lt hP0)
          rw [one_mul] at hkP
          rw [zero_mul] at hsyP
          linarith)
        hi
        (by rw [hrow]; linarith)
        (by rw [hrow, htwv]; linarith)
      rw [hmp]
      congr 1
      ring

/-- C3: after ScrollBuffer with any of the four sign combinations of
(scroll_x, scroll_y), every destination pixel of the rectangle whose
source pixel also lies inside the rectangle holds the pre-scroll source
pixel's colour word and animation byte (the same window geometry is
applied to both buffers, so surviving pixels keep colour and animation
co-located); destination pixels with no valid source are unconstrained. -/
theorem C3_scroll_conservation (colour anim : Int → Nat)
    (pitch left top width height sx sy : Int) (hP : width ≤ pitch) (x y : Int)
    (hx1 : left + max sx 0 ≤ x) (hx2 : x < left + width + min sx 0)
    (hy1 : top + max sy 0 ≤ y) (hy2 : y < top + height + min sy 0) :
    (ScrollBuffer colour anim pitch left top width height sx sy).1 (y * pitch + x) =
      colour ((y - sy) * pitch + (x - sx)) ∧
    (ScrollBuffer colour anim pitch left top width height sx sy).2 (y * pitch + x) =
      anim ((y - sy) * pitch + (x - sx)) :=
  ⟨scrollGeom_conserve colour pitch left top width height sx sy hP x y hx1 hx2 hy1 hy2,
   scrollGeom_conserve anim pitch left top width height sx sy hP x y hx1 hx2 hy1 hy2⟩

theorem C3_scroll_conservation_witness :
    (ScrollBuffer (fun p => (2 * p).toNat) (fun p => (3 * p).toNat)
        4 0 0 3 3 1 (-1)).1 ((1 : Int) * 4 + 2) =
      (fun p : Int => (2 * p).toNat) (((1 : Int) - (-1)) * 4 + (2 - 1)) ∧
    (ScrollBuffer (fun p => (2 * p).toNat) (fun p => (3 * p).toNat)
        4 0 0 3 3 1 (-1)).2 ((1 : Int) * 4 + 2) =
      (fun p : Int => (3 * p).toNat) (((1 : Int) - (-1)) * 4 + (2 - 1)) := by
  have h := C3_scroll_conservation (fun p => (2 * p).toNat) (fun p => (3 * p).toNat)
    4 0 0 3 3 1 (-1) (by norm_num) 2 1 (by norm_num) (by norm_num)
    (by norm_num) (by norm_num)
  exact_mod_cast h
